import Mathlib

/-!
Shallow embedding of the nostr-crosspost content classification and
cross-post decision engine (`src/check-and-post.mjs`) and of the X
threading formatter (`src/unnamed/part_002`), together with proofs of the
specification claims.  Strings are modelled as `List Char`; the JavaScript
regular expressions are embedded as executable `List Char → Bool`
matchers built from a small set of scanning combinators.
-/

namespace Crosspost

/-! ## Basic character and list-of-character helpers -/

/-- Characters treated as whitespace by the JS `\s` class and `trim` (the
ASCII part, which is all the source data uses). -/
def isWs (c : Char) : Bool :=
  c == ' ' || c == '\t' || c == '\n' || c == '\r' || c == '\x0b' || c == '\x0c'

/-- JS `\w` word characters: ASCII letters, digits and underscore. -/
def isWordChar (c : Char) : Bool := c.isAlphanum || c == '_'

/-- ASCII lower-casing of a single character (JS `toLowerCase` on the
ASCII range used by the patterns). -/
def lowerC (c : Char) : Char := c.toLower

/-- Lower-case a character list. -/
def lowerL (l : List Char) : List Char := l.map lowerC

/-- The character list of a string literal. -/
def strL (s : String) : List Char := s.data

/-- `startsWithL l w`: `w` is a prefix of `l` (character-exact). -/
def startsWithL : List Char → List Char → Bool
  | _, [] => true
  | [], _ :: _ => false
  | c :: cs, d :: ds => c == d && startsWithL cs ds

/-- `containsSub hay nee`: `nee` occurs as a contiguous substring of
`hay` (JS `String.prototype.includes`). -/
def containsSub : List Char → List Char → Bool
  | hay, nee =>
    startsWithL hay nee ||
      match hay with
      | [] => false
      | _ :: t => containsSub t nee

/-- The next position starts a word boundary on the right: end of input or
a non-word character. -/
def nonWordAt : List Char → Bool
  | [] => true
  | c :: _ => !isWordChar c

/-- Generic scanner: try `here` at every position of the input; when
`before` is set the position must sit at a `\b` boundary (previous
character, tracked in the accumulator, is not a word character). -/
def scanAt (before : Bool) (here : List Char → Bool) : Bool → List Char → Bool
  | _, [] => false
  | prevW, c :: cs =>
    ((!before || !prevW) && here (c :: cs)) || scanAt before here (isWordChar c) cs

/-- Scanner restricted to the current line: the JS `.` in `X.*Y` does not
match a newline, so the occurrence of `Y` must come before the next
`'\n'`. -/
def lineScanAt (before : Bool) (here : List Char → Bool) : Bool → List Char → Bool
  | _, [] => false
  | prevW, c :: cs =>
    ((!before || !prevW) && here (c :: cs)) ||
      (c != '\n' && lineScanAt before here (isWordChar c) cs)

/-- Literal word with boundary on both sides at the current position. -/
def wordHereBB (w : List Char) (l : List Char) : Bool :=
  startsWithL l w && nonWordAt (l.drop w.length)

/-- `/\bw\b/i` on an already lowered input. -/
def cwBB (w : String) (l : List Char) : Bool := scanAt true (wordHereBB w.data) false l

/-- `/\bw/i` (no right boundary) on an already lowered input. -/
def cwB (w : String) (l : List Char) : Bool :=
  scanAt true (fun l => startsWithL l w.data) false l

/-- `/w\b/i` (no left boundary) on an already lowered input. -/
def cwEndB (w : String) (l : List Char) : Bool := scanAt false (wordHereBB w.data) false l

/-- Plain substring containment used for anchor-free patterns. -/
def cwAny (w : String) (l : List Char) : Bool :=
  scanAt false (fun l => startsWithL l w.data) false l

/-- A sequence of literals separated by `.?` (at most one non-newline
character between consecutive literals), matched at the current position;
`after` additionally requires a right word boundary at the end. -/
def seqHere : List String → Bool → List Char → Bool
  | [], _, _ => true
  | [w], after, l => startsWithL l w.data && (!after || nonWordAt (l.drop w.data.length))
  | w :: w' :: ws, after, l =>
    startsWithL l w.data &&
      (let r := l.drop w.data.length
       seqHere (w' :: ws) after r ||
         (match r with
          | [] => false
          | c :: r' => c != '\n' && seqHere (w' :: ws) after r'))

/-- `/\ba.?b\b/i`-style pattern (boundary on the left, `.?` separators,
optional boundary on the right) on an already lowered input. -/
def cwSeq (ws : List String) (after : Bool) (l : List Char) : Bool :=
  scanAt true (seqHere ws after) false l

/-! ## The individual regular expressions of `check-and-post.mjs` -/

/-- `/\bsetting.*(buy|sell)\b/i`: `setting` at a left boundary, then any
non-newline stretch, then `buy` or `sell` ending at a boundary. -/
def settingBuySell (l : List Char) : Bool :=
  scanAt true
    (fun l =>
      startsWithL l (strL "setting") &&
        lineScanAt false
          (fun r => wordHereBB (strL "buy") r || wordHereBB (strL "sell") r)
          true (l.drop 7))
    false l

/-- `/\bposition\b.*\b(long|short)\b/i`. -/
def positionLongShort (l : List Char) : Bool :=
  scanAt true
    (fun l =>
      wordHereBB (strL "position") l &&
        lineScanAt true
          (fun r => wordHereBB (strL "long") r || wordHereBB (strL "short") r)
          true (l.drop 8))
    false l

/-- `/\btrad(e|ing)\b.*\border\b/i`. -/
def tradeOrder (l : List Char) : Bool :=
  scanAt true
    (fun l =>
      (wordHereBB (strL "trade") l &&
        lineScanAt true (wordHereBB (strL "order")) true (l.drop 5)) ||
      (wordHereBB (strL "trading") l &&
        lineScanAt true (wordHereBB (strL "order")) true (l.drop 7)))
    false l

/-- `/^[A-Z\s!?.]{1,30}$/`: an all-caps short shout, matched against the
raw (non-lowered) content. -/
def allCapsShort (l : List Char) : Bool :=
  decide (1 ≤ l.length) && decide (l.length ≤ 30) &&
    l.all (fun c => c.isUpper || isWs c || c == '!' || c == '?' || c == '.')

/-- `/^@\w+/`: direct-reply syntax. -/
def atReply (l : List Char) : Bool :=
  match l with
  | a :: c :: _ => a == '@' && isWordChar c
  | _ => false

/-- One char position inside an image-only check: somewhere after at least
one consumed character there is a `.` followed by an image extension. -/
def hasDotExt : Bool → List Char → Bool
  | _, [] => false
  | seen, c :: cs =>
    (seen && c == '.' &&
      (startsWithL cs (strL "jpg") || startsWithL cs (strL "jpeg") ||
        startsWithL cs (strL "png") || startsWithL cs (strL "gif") ||
        startsWithL cs (strL "webp"))) ||
    hasDotExt true cs

/-- `/^\s*https?:\/\/\S+\.(jpg|jpeg|png|gif|webp)\S*\s*$/i`: the whole
post is a single image URL. -/
def imageOnly (l : List Char) : Bool :=
  let t := (lowerL l).dropWhile isWs
  let tok := t.takeWhile (fun c => !isWs c)
  let rest := t.drop tok.length
  rest.all isWs &&
    ((startsWithL tok (strL "https://") && hasDotExt false (tok.drop 8)) ||
     (startsWithL tok (strL "http://") && hasDotExt false (tok.drop 7)))

/-- Tail of the lets-go pattern after the optional apostrophe:
`s\s+go\s*!*$`. -/
def letsGoTail : List Char → Bool
  | [] => false
  | c :: cs =>
    c == 's' &&
      (let w := cs.takeWhile isWs
       decide (1 ≤ w.length) &&
         (let r := cs.drop w.length
          startsWithL r (strL "go") &&
            ((r.drop 2).dropWhile isWs).all (fun c => c == '!')))

/-- `/\blet'?s\s+go\s*!*$/i`. -/
def letsGo (l : List Char) : Bool :=
  scanAt true
    (fun l =>
      startsWithL l (strL "let") &&
        (let r := l.drop 3
         letsGoTail r ||
           (match r with
            | c :: r' => c == Char.ofNat 39 && letsGoTail r'
            | [] => false)))
    false l

/-- `/\bnip-?\d/i`. -/
def nipNum (l : List Char) : Bool :=
  scanAt true
    (fun l =>
      startsWithL l (strL "nip") &&
        (let r := l.drop 3
         (match r with
          | c :: r' => c.isDigit || (c == '-' && (match r' with
              | d :: _ => d.isDigit
              | [] => false))
          | [] => false)))
    false l

/-- `/^ha+\b/i`. -/
def haPlus (l : List Char) : Bool :=
  match l with
  | c :: r =>
    c == 'h' &&
      (let as := r.takeWhile (fun c => c == 'a')
       decide (1 ≤ as.length) && nonWordAt (r.drop as.length))
  | [] => false

/-! ## The pattern tables -/

/-- `BLOCKLIST_PATTERNS` from `check-and-post.mjs`: posts matching any of
these are never cross-posted.  Each entry embeds the regex at the same
list position in the source. -/
def BLOCKLIST_PATTERNS : List (List Char → Bool) := [
  fun c => cwBB "buy order" (lowerL c),
  fun c => cwBB "sell order" (lowerL c),
  fun c => settingBuySell (lowerL c),
  fun c => positionLongShort (lowerL c),
  fun c => tradeOrder (lowerL c),
  fun c => cwBB "dca" (lowerL c),
  fun c => cwBB "stop openclaw" (lowerL c),
  fun c => cwBB "heartbeat" (lowerL c),
  fun c => cwBB "heartbeat_ok" (lowerL c),
  allCapsShort,
  fun c => cwBB "family" (lowerL c),
  fun c => cwBB "kid" (lowerL c) || cwBB "kids" (lowerL c),
  fun c => cwBB "wife" (lowerL c),
  fun c => cwBB "katie" (lowerL c),
  fun c => cwBB "logan" (lowerL c),
  fun c => cwBB "halee" (lowerL c),
  fun c => cwBB "therapy" (lowerL c),
  fun c => cwBB "doctor" (lowerL c),
  fun c => cwBB "appointment" (lowerL c),
  atReply,
  imageOnly,
  fun c => cwB "shitpost" (lowerL c),
  fun c => cwBB "copium" (lowerL c),
  fun c => letsGo (lowerL c)]

/-- `SKIP_PATTERNS`: casual/personal content. -/
def SKIP_PATTERNS : List (List Char → Bool) := [
  fun c => wordHereBB (strL "gm") (lowerL c),
  fun c => cwAny "good morning" (lowerL c),
  fun c => cwAny "good night" (lowerL c),
  fun c => cwEndB "gn" (lowerL c),
  fun c => cwAny "pura vida" (lowerL c),
  fun c => wordHereBB (strL "lol") (lowerL c),
  fun c => haPlus (lowerL c),
  fun c => wordHereBB (strL "nice") (lowerL c),
  fun c => wordHereBB (strL "yes") (lowerL c),
  fun c => wordHereBB (strL "no") (lowerL c),
  fun c => wordHereBB (strL "this") (lowerL c),
  fun c => c.head? == some '😂',
  fun c => c.head? == some '🤣',
  fun c => c.head? == some '💀',
  fun c => startsWithL c (strL "nostr:npub1") || startsWithL c (strL "nostr:nprofile1")]

/-- `XWORTHY_PATTERNS`: punchy/technical topic set (X eligibility). -/
def XWORTHY_PATTERNS : List (List Char → Bool) := [
  fun c => cwBB "bitcoin" (lowerL c),
  fun c => cwBB "btc" (lowerL c),
  fun c => cwBB "nostr" (lowerL c),
  fun c => cwBB "ai" (lowerL c),
  fun c => cwBB "artificial intelligence" (lowerL c),
  fun c => cwB "decentraliz" (lowerL c),
  fun c => cwB "censorship" (lowerL c),
  fun c => cwBB "freedom" (lowerL c),
  fun c => cwBB "privacy" (lowerL c),
  fun c => cwSeq ["open", "source"] true (lowerL c),
  fun c => cwBB "foss" (lowerL c),
  fun c => cwBB "protocol" (lowerL c),
  fun c => cwBB "conference" (lowerL c),
  fun c => cwBB "summit" (lowerL c),
  fun c => cwBB "hackathon" (lowerL c),
  fun c => cwBB "event" (lowerL c),
  fun c => cwBB "shakespeare" (lowerL c),
  fun c => cwBB "agora" (lowerL c),
  fun c => cwBB "onyx" (lowerL c),
  fun c => cwBB "openclaw" (lowerL c),
  fun c => cwBB "ditto" (lowerL c),
  fun c => cwBB "community" (lowerL c),
  fun c => cwBB "communities" (lowerL c),
  fun c => cwB "moderat" (lowerL c),
  fun c => cwSeq ["web", "of", "trust"] true (lowerL c),
  fun c => cwBB "wot" (lowerL c),
  fun c => cwBB "relay" (lowerL c),
  fun c => cwBB "algorithm" (lowerL c),
  fun c => cwB "doomscroll" (lowerL c),
  fun c => cwB "bloomscroll" (lowerL c),
  fun c => cwSeq ["social", "media"] true (lowerL c),
  fun c => cwSeq ["social", "network"] false (lowerL c),
  fun c => cwBB "platform" (lowerL c),
  fun c => cwBB "agent" (lowerL c),
  fun c => cwB "sovereign" (lowerL c),
  fun c => cwSeq ["self", "custod"] false (lowerL c),
  fun c => cwBB "lightning" (lowerL c),
  fun c => cwB "zap" (lowerL c),
  fun c => cwBB "tech" (lowerL c),
  fun c => cwBB "software" (lowerL c),
  fun c => cwBB "open" (lowerL c),
  fun c => cwB "build" (lowerL c),
  fun c => cwBB "dev" (lowerL c),
  fun c => cwB "developer" (lowerL c),
  fun c => cwBB "building" (lowerL c),
  fun c => cwBB "shipped" (lowerL c),
  fun c => cwB "launch" (lowerL c),
  fun c => nipNum (lowerL c),
  fun c => cwSeq ["freedom", "tech"] true (lowerL c)]

/-- `LINKEDIN_PATTERNS`: professional/industry topic set. -/
def LINKEDIN_PATTERNS : List (List Char → Bool) := [
  fun c => cwBB "industry" (lowerL c),
  fun c => cwBB "business" (lowerL c),
  fun c => cwBB "enterprise" (lowerL c),
  fun c => cwBB "professional" (lowerL c),
  fun c => cwBB "leadership" (lowerL c),
  fun c => cwBB "strategy" (lowerL c),
  fun c => cwBB "innovation" (lowerL c),
  fun c => cwBB "conference" (lowerL c),
  fun c => cwBB "speaking" (lowerL c),
  fun c => cwB "present" (lowerL c),
  fun c => cwBB "keynote" (lowerL c),
  fun c => cwB "education" (lowerL c),
  fun c => cwBB "learning" (lowerL c),
  fun c => cwBB "workshop" (lowerL c),
  fun c => cwSeq ["thought", "leader"] false (lowerL c),
  fun c => cwBB "ecosystem" (lowerL c),
  fun c => cwBB "devrel" (lowerL c),
  fun c => cwSeq ["developer", "relations"] false (lowerL c)]

/-- `CASUAL_TONE_PATTERNS`: informal-tone markers. -/
def CASUAL_TONE_PATTERNS : List (List Char → Bool) := [
  fun c => cwBB "lmao" (lowerL c),
  fun c => cwBB "bruh" (lowerL c),
  fun c => cwBB "fam" (lowerL c),
  fun c => containsSub c [Char.ofNat 128514] || containsSub c [Char.ofNat 129315] ||
    containsSub c [Char.ofNat 128128],
  fun c => cwBB "af" (lowerL c),
  fun c => cwBB "degen" (lowerL c),
  fun c => cwBB "lfg" (lowerL c),
  fun c => cwB "haha" (lowerL c)]

/-- `isBlocklisted` from `check-and-post.mjs`. -/
def isBlocklisted (content : List Char) : Bool :=
  BLOCKLIST_PATTERNS.any (fun p => p content)

/-! ## Global replacement (the JS `String.replace(/…/g, …)` chains) -/

/-- Case-insensitive literal match at the current position (`w` given in
lower case). -/
def startsWithCIL : List Char → List Char → Bool
  | _, [] => true
  | [], _ :: _ => false
  | c :: cs, d :: ds => (lowerC c == d) && startsWithCIL cs ds

/-- `startsWithCI l w`: the input starts with `w`, compared
case-insensitively. -/
def startsWithCI (l : List Char) (w : String) : Bool := startsWithCIL l w.data

/-- Fuel-indexed worker for `scrub`; the fuel (initially the input
length) only bounds the recursion and never runs out, since every match
consumes at least one character. -/
def scrubF (f : List Char → Option (Nat × List Char)) : Nat → List Char → List Char
  | _, [] => []
  | 0, l => l
  | fuel + 1, c :: cs =>
    match f (c :: cs) with
    | some (n, rep) =>
      if n = 0 then c :: scrubF f fuel cs
      else rep ++ scrubF f fuel ((c :: cs).drop n)
    | none => c :: scrubF f fuel cs

/-- Global left-to-right replacement: at each position try the matcher
`f`; on a match `(n, rep)` with `n` consumed characters emit the
replacement and continue after the match (as the JS `g`-flag scan does),
otherwise keep the character. -/
def scrub (f : List Char → Option (Nat × List Char)) (l : List Char) : List Char :=
  scrubF f l.length l

/-- Matcher for `/https?:\/\/njump\.me\/\S+/gi`. -/
def matchNjump (l : List Char) : Option (Nat × List Char) :=
  if startsWithCI l "https://njump.me/" then
    let k := ((l.drop 17).takeWhile (fun c => !isWs c)).length
    if k = 0 then none else some (17 + k, [])
  else if startsWithCI l "http://njump.me/" then
    let k := ((l.drop 16).takeWhile (fun c => !isWs c)).length
    if k = 0 then none else some (16 + k, [])
  else none

/-- The mandatory core of the attribution pattern:
`posted (?:via|on) nostr\b[^\n]*`. -/
def matchPostedCore (r : List Char) : Option Nat :=
  if startsWithCI r "posted via nostr" && nonWordAt (r.drop 16) then
    some (16 + ((r.drop 16).takeWhile (fun c => c != '\n')).length)
  else if startsWithCI r "posted on nostr" && nonWordAt (r.drop 15) then
    some (15 + ((r.drop 15).takeWhile (fun c => c != '\n')).length)
  else none

/-- Matcher for `/(?:🟣\s*)?(?:originally )?posted (?:via|on) nostr\b[^\n]*/gi`. -/
def matchPostedNostr (l : List Char) : Option (Nat × List Char) :=
  let s1 :=
    match l with
    | c :: cs =>
      if c == '🟣' then
        let w := (cs.takeWhile isWs).length
        (1 + w, cs.drop w)
      else (0, l)
    | [] => (0, l)
  let s2 :=
    if startsWithCI s1.2 "originally " then (s1.1 + 11, s1.2.drop 11) else s1
  match matchPostedCore s2.2 with
  | some n => some (s2.1 + n, [])
  | none => none

/-- Matcher for `/\n*🟣\s*/g`. -/
def matchPurple (l : List Char) : Option (Nat × List Char) :=
  let k := (l.takeWhile (fun c => c == '\n')).length
  match l.drop k with
  | c :: cs =>
    if c == '🟣' then some (k + 1 + (cs.takeWhile isWs).length, []) else none
  | [] => none

/-- Matcher for a case-insensitive token followed by a nonempty
`[a-z0-9]+` run (the `nostr:` reference patterns). -/
def matchTokenRun (tok : String) (l : List Char) : Option (Nat × List Char) :=
  if startsWithCI l tok then
    let tl := tok.data.length
    let k := ((l.drop tl).takeWhile Char.isAlphanum).length
    if k = 0 then none else some (tl + k, [])
  else none

/-- Matcher for `/nostr:npub1[a-z0-9]+/gi`. -/
def matchNpub (l : List Char) : Option (Nat × List Char) :=
  matchTokenRun "nostr:npub1" l

/-- Matcher for `/nostr:(?:nevent1|naddr1|note1|nprofile1)[a-z0-9]+/gi`. -/
def matchNostrRef (l : List Char) : Option (Nat × List Char) :=
  matchTokenRun "nostr:nevent1" l <|> matchTokenRun "nostr:naddr1" l <|>
    matchTokenRun "nostr:note1" l <|> matchTokenRun "nostr:nprofile1" l

/-- Matcher for `/\n{3,}/g` (replaced by two newlines). -/
def matchNl3 (l : List Char) : Option (Nat × List Char) :=
  let k := (l.takeWhile (fun c => c == '\n')).length
  if 3 ≤ k then some (k, strL "\n\n") else none

/-- Matcher for `/ {2,}/g` (replaced by one space; the class is the space
character only). -/
def matchSp2 (l : List Char) : Option (Nat × List Char) :=
  let k := (l.takeWhile (fun c => c == ' ')).length
  if 2 ≤ k then some (k, [' ']) else none

/-- Remove trailing whitespace. -/
def dropTrail : List Char → List Char
  | [] => []
  | c :: cs =>
    match dropTrail cs with
    | [] => if isWs c then [] else [c]
    | r => c :: r

/-- JS `String.prototype.trim`. -/
def trimL (l : List Char) : List Char := dropTrail (l.dropWhile isWs)

/-- `stripNostrArtifacts` from `check-and-post.mjs`: the chained global
replacements followed by `trim`, in source order. -/
def stripNostrArtifacts (text : List Char) : List Char :=
  trimL (scrub matchSp2 (scrub matchNl3 (scrub matchNostrRef (scrub matchNpub
    (scrub matchPurple (scrub matchPostedNostr (scrub matchNjump text)))))))

/-! ## Content classification -/

/-- `MIN_CONTENT_LENGTH` config constant. -/
def MIN_CONTENT_LENGTH : Nat := 50

/-- `MIN_AGE_SECONDS` config constant. -/
def MIN_AGE_SECONDS : Int := 3600

/-- `THRESHOLD_X` config constant. -/
def THRESHOLD_X : Nat := 40

/-- `THRESHOLD_LINKEDIN` config constant. -/
def THRESHOLD_LINKEDIN : Nat := 60

/-- `DAILY_CAP_X` config constant. -/
def DAILY_CAP_X : Int := 3

/-- `DAILY_CAP_LINKEDIN` config constant. -/
def DAILY_CAP_LINKEDIN : Int := 1

/-- Result shape of `classifyContent`: either a skip with a reason or the
eligibility record `{x, linkedin, needsRewrite}`. -/
inductive Classification where
  | skip (reason : String)
  | eligible (x : Bool) (linkedin : Bool) (needsRewrite : Bool)
deriving DecidableEq

/-- `classifyContent` from `check-and-post.mjs`. -/
def classifyContent (content : List Char) : Classification :=
  if isBlocklisted content then .skip "blocklisted content"
  else if SKIP_PATTERNS.any (fun p => p content) then .skip "casual/personal content"
  else
    let cleanContent := stripNostrArtifacts content
    let n := cleanContent.length
    if n < MIN_CONTENT_LENGTH then
      .skip s!"too short ({n} chars, need {MIN_CONTENT_LENGTH})"
    else
      let isXWorthy := XWORTHY_PATTERNS.any (fun p => p content)
      let isLinkedInWorthy := LINKEDIN_PATTERNS.any (fun p => p content)
      let isCasualTone := CASUAL_TONE_PATTERNS.any (fun p => p content)
      if !isXWorthy && !isLinkedInWorthy then .skip "off-topic for cross-posting"
      else
        .eligible isXWorthy
          (isLinkedInWorthy || (isXWorthy && decide (200 < cleanContent.length)))
          (isCasualTone && isLinkedInWorthy)

/-! ## Engine data model -/

/-- The two destination platforms. -/
inductive Platform where
  | x
  | linkedin
deriving DecidableEq

/-- One `crossPosted` entry `{at, dryRun, ...}`.  A "flagged" entry (needs
professional rewrite) has no `dryRun` field in the JS object; since every
read of `dryRun` treats `undefined` as `false`, it is modelled with
`dryRun = false` and `flagged = true`. -/
structure CrossEntry where
  atTime : Int
  dryRun : Bool
  flagged : Bool
deriving DecidableEq

/-- The `crossPosted` mapping of a Post Record. -/
structure CrossPosted where
  x : Option CrossEntry
  linkedin : Option CrossEntry
deriving DecidableEq

/-- Engagement component counts returned by `getEngagement`. -/
structure Engagement where
  reactions : Nat
  reposts : Nat
  zaps : Nat
  replies : Nat
deriving DecidableEq

/-- The weighted engagement score computed in `getEngagement`. -/
def engScore (e : Engagement) : Nat :=
  e.reactions * 1 + e.reposts * 3 + e.zaps * 5 + e.replies * 2

/-- A Post Record (`state.posted[id]`).  `deleted` is only ever read by
this program (absent on records it writes, hence `false` there). -/
structure PostRecord where
  nevent : String
  engagement : Engagement
  score : Nat
  trendingBonus : Nat
  crossPosted : CrossPosted
  content : List Char
  kind : Int
  deleted : Bool
deriving DecidableEq

/-- A Skip Record (`state.skipped[id]`). -/
structure SkipRecord where
  reason : String
  atTime : Int
deriving DecidableEq

/-- The persisted daily counters (`state.dailyCounts`); `includesDryRun`
models the legacy `_includesDryRun` marker. -/
structure DailyCounts where
  date : String
  x : Int
  linkedin : Int
  includesDryRun : Bool
deriving DecidableEq

/-- One `state.draftsPosted` entry. -/
structure DraftMark where
  file : String
  atTime : Int
  platforms : List String
  dryRun : Bool
deriving DecidableEq

/-- The persisted state document (`crosspost-state.json`). -/
structure CrosspostState where
  lastCheck : Int
  posted : List (String × PostRecord)
  skipped : List (String × SkipRecord)
  dailyCounts : DailyCounts
  draftsPosted : List DraftMark
deriving DecidableEq

/-- A fetched Nostr event (candidate post). -/
structure NostrEvent where
  id : String
  created_at : Int
  kind : Int
  tags : List (List String)
  content : List Char
deriving DecidableEq

/-- A native draft loaded from the drafts directory. -/
structure Draft where
  platforms : List String
  xText : Option (List Char)
  linkedinText : Option (List Char)
  content : Option (List Char)
  scheduledFor : Option Int
  file : String
deriving DecidableEq

/-- Target of a real outbound publish call. -/
inductive CallTarget where
  | event (id : String)
  | draft (file : String)
deriving DecidableEq

/-- A real (non-dry-run) publisher invocation, with its success flag. -/
structure Call where
  platform : Platform
  target : CallTarget
  ok : Bool
deriving DecidableEq

/-- External collaborators: publishers, engagement queries, the trending
search and the `nak encode` helper, modelled as pure oracles. -/
structure Env where
  publish : Platform → String → Bool
  publishNative : Platform → List Char → Bool
  engagement : String → Engagement
  searchHot : String → Nat
  nakEncode : String → String

/-! ## Key-value object access (JS object maps as association lists) -/

/-- Lookup in a JS-object-as-map (first matching key). -/
def lookupA {α : Type} : List (String × α) → String → Option α
  | [], _ => none
  | e :: es, k => if e.1 = k then some e.2 else lookupA es k

/-- JS property assignment: update in place or append. -/
def setA {α : Type} : List (String × α) → String → α → List (String × α)
  | [], k, v => [(k, v)]
  | e :: es, k, v => if e.1 = k then (k, v) :: es else e :: setA es k v

/-! ## Duplicate detection, engagement and trending -/

/-- Length bound for `dropWhile`, used for termination. -/
theorem len_dropWhile_le {α : Type} (p : α → Bool) (l : List α) :
    (l.dropWhile p).length ≤ l.length := by
  induction l with
  | nil => simp [List.dropWhile]
  | cons c cs ih =>
    by_cases h : p c
    · simp only [List.dropWhile_cons, h, if_true, List.length_cons]
      exact Nat.le_succ_of_le ih
    · simp [List.dropWhile_cons, h]

/-- State-tracking worker of the whitespace collapse: `inRun` records
whether the previous character belonged to a whitespace run already
replaced by a single space. -/
def collapseAux : Bool → List Char → List Char
  | _, [] => []
  | inRun, c :: cs =>
    if isWs c then
      if inRun then collapseAux true cs else ' ' :: collapseAux true cs
    else c :: collapseAux false cs

/-- The whitespace collapse inside `isDuplicateContent`
(`replace(/\s+/g, ' ')`: every whitespace run becomes one space). -/
def collapseWs (l : List Char) : List Char := collapseAux false l

/-- Normalised comparison key of a body. -/
def normalizeContent (c : List Char) : List Char :=
  (trimL (collapseWs (lowerL c))).take 100

/-- `isDuplicateContent` from `check-and-post.mjs`: the candidate body is
a near-duplicate of a body stored in any Post Record. -/
def isDuplicateContent (content : List Char) (posted : List (String × PostRecord)) : Bool :=
  let normalized := normalizeContent content
  posted.any (fun e =>
    !(e.2.content == ([] : List Char)) &&
      (let prevNormalized := normalizeContent e.2.content
       normalized == prevNormalized || containsSub normalized prevNormalized ||
         containsSub prevNormalized normalized))

/-- Fuel-indexed worker for `splitWs`; the fuel (initially the input
length) never runs out since every step consumes at least one
character. -/
def splitWsF : Nat → List Char → List (List Char)
  | _, [] => []
  | 0, _ => []
  | fuel + 1, c :: cs =>
    if isWs c then splitWsF fuel cs
    else
      (c :: cs.takeWhile (fun d => !isWs d)) ::
        splitWsF fuel (cs.dropWhile (fun d => !isWs d))

/-- Split on whitespace runs (JS `split(/\s+/)`, after the empty tokens
are discarded by the length filter): a token is a maximal non-whitespace
run. -/
def splitWs (l : List Char) : List (List Char) := splitWsF l.length l

/-- Matcher for `/nostr:\S+/g` (case-sensitive, as in the source). -/
def matchNostrTok (l : List Char) : Option (Nat × List Char) :=
  if startsWithL l (strL "nostr:") then
    let k := ((l.drop 6).takeWhile (fun c => !isWs c)).length
    if k = 0 then none else some (6 + k, [])
  else none

/-- Matcher for `/https?:\S+/g` (case-sensitive, as in the source). -/
def matchHttpTok (l : List Char) : Option (Nat × List Char) :=
  if startsWithL l (strL "https:") then
    let k := ((l.drop 6).takeWhile (fun c => !isWs c)).length
    if k = 0 then none else some (6 + k, [])
  else if startsWithL l (strL "http:") then
    let k := ((l.drop 5).takeWhile (fun c => !isWs c)).length
    if k = 0 then none else some (5 + k, [])
  else none

/-- The word list used by `checkTrending`: remove `nostr:`/URL tokens,
split on whitespace, keep words longer than 4 characters, take the first
three. -/
def trendingWords (content : List Char) : List (List Char) :=
  ((splitWs (scrub matchHttpTok (scrub matchNostrTok content))).filter
    (fun w => decide (4 < w.length))).take 3

/-- Join words with single spaces (JS `Array.prototype.join(' ')`). -/
def joinSpace : List (List Char) → List Char
  | [] => []
  | [w] => w
  | w :: ws => w ++ ' ' :: joinSpace ws

/-- `checkTrending` from `check-and-post.mjs`: queries the hot search with
the extracted phrase; 5 on any result, 0 on empty words, empty results or
failure (a failed query is an empty result list from `nakLines`). -/
def checkTrending (env : Env) (content : List Char) : Nat :=
  let words := joinSpace (trendingWords content)
  if words = [] then 0
  else if 0 < env.searchHot (String.mk (strL "sort:hot " ++ words)) then 5
  else 0

/-- `eventToNevent`: the `nak encode` result with the degraded literal
fallback. -/
def eventToNevent (env : Env) (id : String) : String :=
  let r := env.nakEncode id
  if r = "" then String.mk (strL "nevent1" ++ id.data) else r

/-! ## Cross-post decision engine -/

/-- The quoted-post test `/nostr:(note1|nevent1)[a-z0-9]+/i`. -/
def hasQuoteRef (l : List Char) : Bool :=
  scanAt false
    (fun l =>
      (startsWithCI l "nostr:note1" &&
        (match l.drop 11 with
         | c :: _ => c.isAlphanum
         | [] => false)) ||
      (startsWithCI l "nostr:nevent1" &&
        (match l.drop 13 with
         | c :: _ => c.isAlphanum
         | [] => false)))
    false l

/-- The entry is present and marks a real (non-dry-run) publish
(`prev.p && !prev.p.dryRun`). -/
def isNonDry : Option CrossEntry → Bool
  | some e => !e.dryRun
  | none => false

/-- Platform projection of a `crossPosted` map. -/
def getCross (cp : CrossPosted) : Platform → Option CrossEntry
  | .x => cp.x
  | .linkedin => cp.linkedin

/-- Write a Skip Record for `id`. -/
def withSkip (st : CrosspostState) (id : String) (reason : String) (now : Int) :
    CrosspostState :=
  { st with skipped := setA st.skipped id { reason := reason, atTime := now } }

/-- `crossPost`: a dry run succeeds without any external call; a real run
invokes the platform publisher once and reports its success. -/
def crossPostCall (env : Env) (dryRun : Bool) (p : Platform) (nevent : String)
    (id : String) : Bool × List Call :=
  if dryRun then (true, [])
  else
    let ok := env.publish p nevent
    (ok, [{ platform := p, target := .event id, ok := ok }])

/-- One step of the merge loop over the freshly `posted` entries:
`if (!merged[platform] || merged[platform].dryRun || !data.dryRun)
merged[platform] = data`. -/
def mergeEntry (old d : Option CrossEntry) : Option CrossEntry :=
  match d with
  | none => old
  | some data =>
    match old with
    | none => some data
    | some e => if e.dryRun || !data.dryRun then some data else some e

/-- Merge the new per-platform results into the existing `crossPosted`
mapping. -/
def mergeCross (old np : CrossPosted) : CrossPosted :=
  ⟨mergeEntry old.x np.x, mergeEntry old.linkedin np.linkedin⟩

/-- The below-threshold skip reason string. -/
def belowThresholdReason (totalScore : Nat) : String :=
  s!"below threshold (score={totalScore}, needX={THRESHOLD_X}, needLI={THRESHOLD_LINKEDIN})"

/-- The `state.posted[id]` guard of the candidate loop: the id is already
fully handled (deleted, or real entries on both platforms). -/
def postedBlocked (st : CrosspostState) (id : String) : Bool :=
  match lookupA st.posted id with
  | some r => r.deleted || (isNonDry r.crossPosted.x && isNonDry r.crossPosted.linkedin)
  | none => false

/-- The structural reply test of the candidate loop. -/
def isReplyPost (post : NostrEvent) : Bool :=
  post.tags.any (fun t =>
    t.get? 0 == some "e" && (t.get? 3 == some "reply" || t.get? 3 == some "root"))

/-- The stored `crossPosted` map for an id (empty when no Post Record). -/
def storedCross (st : CrosspostState) (id : String) : CrossPosted :=
  match lookupA st.posted id with
  | some r => r.crossPosted
  | none => ⟨none, none⟩

/-- The X arm of the publish phase, given the evaluated guard. -/
def xBranch (env : Env) (dryRun : Bool) (now : Int) (counts : DailyCounts)
    (nevent id : String) (cond : Bool) : Option CrossEntry × DailyCounts × List Call :=
  if cond then
    let rc := crossPostCall env dryRun .x nevent id
    if rc.1 then
      (some { atTime := now, dryRun := dryRun, flagged := false },
        (if dryRun then counts else { counts with x := counts.x + 1 }), rc.2)
    else (none, counts, rc.2)
  else (none, counts, [])

/-- The LinkedIn arm of the publish phase, given the evaluated guard: a
flagged entry without any publisher call when a rewrite is needed,
otherwise a real publish attempt. -/
def liBranch (env : Env) (dryRun : Bool) (now : Int) (counts : DailyCounts)
    (nevent id : String) (cond needsRewrite : Bool) :
    Option CrossEntry × DailyCounts × List Call :=
  if cond then
    if needsRewrite then
      (some { atTime := now, dryRun := false, flagged := true }, counts, [])
    else
      let rc := crossPostCall env dryRun .linkedin nevent id
      if rc.1 then
        (some { atTime := now, dryRun := dryRun, flagged := false },
          (if dryRun then counts else { counts with linkedin := counts.linkedin + 1 }),
          rc.2)
      else (none, counts, rc.2)
  else (none, counts, [])

/-- The publish phase for one eligible, sufficiently scored candidate:
platform guards, publisher invocations, counter increments, flagged
entries and the sticky merge into the Post Record. -/
def publishPhase (env : Env) (dryRun : Bool) (now : Int) (st : CrosspostState)
    (counts : DailyCounts) (post : NostrEvent)
    (cx cli needsRewrite meetsX meetsLI : Bool) (engagement : Engagement)
    (trendingBonus totalScore : Nat) : (CrosspostState × DailyCounts) × List Call :=
  let nevent := eventToNevent env post.id
  let prevPosted := storedCross st post.id
  let alreadyOnX := isNonDry prevPosted.x
  let alreadyOnLinkedin := isNonDry prevPosted.linkedin
  let xr := xBranch env dryRun now counts nevent post.id
    (cx && meetsX && decide (counts.x < DAILY_CAP_X) && !alreadyOnX)
  let countsX := xr.2.1
  let lr := liBranch env dryRun now countsX nevent post.id
    (cli && meetsLI && decide (countsX.linkedin < DAILY_CAP_LINKEDIN) && !alreadyOnLinkedin)
    needsRewrite
  let counts' := lr.2.1
  let calls := xr.2.2 ++ lr.2.2
  if xr.1.isSome || lr.1.isSome then
    let merged := mergeCross prevPosted ⟨xr.1, lr.1⟩
    let rec0 : PostRecord :=
      { nevent := nevent, engagement := engagement, score := totalScore,
        trendingBonus := trendingBonus, crossPosted := merged,
        content := post.content.take 200, kind := post.kind, deleted := false }
    (({ st with posted := setA st.posted post.id rec0 }, counts'), calls)
  else ((st, counts'), calls)

/-- One iteration of the candidate loop in `main`: dedup/recency checks,
classification, scoring, thresholds and the publish phase. -/
def processPost (env : Env) (dryRun : Bool) (now : Int)
    (sc : CrosspostState × DailyCounts) (post : NostrEvent) :
    (CrosspostState × DailyCounts) × List Call :=
  let st := sc.1
  let counts := sc.2
  if (lookupA st.skipped post.id).isSome then (sc, [])
  else if postedBlocked st post.id then (sc, [])
  else if isReplyPost post then
    ((withSkip st post.id "reply" now, counts), [])
  else if post.kind = 6 then (sc, [])
  else if hasQuoteRef post.content then
    ((withSkip st post.id "quoted post (context lost on other platforms)" now, counts), [])
  else if now - post.created_at < MIN_AGE_SECONDS then (sc, [])
  else if isDuplicateContent post.content st.posted then
    ((withSkip st post.id "duplicate of previously posted content" now, counts), [])
  else
    match classifyContent post.content with
    | .skip reason => ((withSkip st post.id reason now, counts), [])
    | .eligible cx cli needsRewrite =>
      let engagement := env.engagement post.id
      let trendingBonus := checkTrending env post.content
      let totalScore := engScore engagement + trendingBonus
      let meetsX := decide (THRESHOLD_X ≤ totalScore)
      let meetsLI := decide (THRESHOLD_LINKEDIN ≤ totalScore)
      if !meetsX && !meetsLI then
        ((withSkip st post.id (belowThresholdReason totalScore) now, counts), [])
      else
        publishPhase env dryRun now st counts post cx cli needsRewrite meetsX meetsLI
          engagement trendingBonus totalScore

/-- The `seen`-set dedup over fetched posts. -/
def dedupPosts : List NostrEvent → List String → List NostrEvent
  | [], _ => []
  | p :: ps, seen =>
    if seen.contains p.id then dedupPosts ps seen
    else p :: dedupPosts ps (p.id :: seen)

/-- Fold of `processPost` over the candidate list, accumulating the
publisher calls. -/
def runPostsAux (env : Env) (dryRun : Bool) (now : Int) :
    List NostrEvent → (CrosspostState × DailyCounts) →
    (CrosspostState × DailyCounts) × List Call
  | [], sc => (sc, [])
  | p :: ps, sc =>
    let r := processPost env dryRun now sc p
    let r2 := runPostsAux env dryRun now ps r.1
    (r2.1, r.2 ++ r2.2)

/-! ## Native drafts -/

/-- JS `a || b` over optional draft texts, with the empty string counted
as falsy. -/
def jsOrText (a b : Option (List Char)) : Option (List Char) :=
  match a with
  | some t =>
    if t = [] then
      match b with
      | some u => if u = [] then none else some u
      | none => none
    else some t
  | none =>
    match b with
    | some u => if u = [] then none else some u
    | none => none

/-- `postNativeContent`: dry runs synthesise success; real runs invoke the
native publisher once. -/
def postNativeCall (env : Env) (dryRun : Bool) (p : Platform) (text : List Char)
    (file : String) : Bool × List Call :=
  if dryRun then (true, [])
  else
    let ok := env.publishNative p text
    (ok, [{ platform := p, target := .draft file, ok := ok }])

/-- Increment the platform counter (the `counts.x++` / `counts.linkedin++`
of the respective branch). -/
def incCount (p : Platform) (counts : DailyCounts) : DailyCounts :=
  match p with
  | .x => { counts with x := counts.x + 1 }
  | .linkedin => { counts with linkedin := counts.linkedin + 1 }

/-- One platform arm of a draft: publish the chosen text when the guard
holds, incrementing the counter on real success. -/
def draftArm (env : Env) (dryRun : Bool) (p : Platform) (counts : DailyCounts)
    (text : Option (List Char)) (file : String) (cond : Bool) :
    Bool × DailyCounts × List Call :=
  if cond then
    match text with
    | some t =>
      let rc := postNativeCall env dryRun p t file
      if rc.1 then
        (true, (if dryRun then counts else incCount p counts), rc.2)
      else (false, counts, rc.2)
    | none => (false, counts, [])
  else (false, counts, [])

/-- One iteration of `processDrafts`. -/
def processDraft (env : Env) (dryRun : Bool) (nowMs : Int)
    (sc : CrosspostState × DailyCounts) (draft : Draft) :
    (CrosspostState × DailyCounts) × List Call :=
  let st := sc.1
  let counts := sc.2
  if (match draft.scheduledFor with
      | some t => decide (nowMs < t)
      | none => false) then (sc, [])
  else
    let xr := draftArm env dryRun .x counts (jsOrText draft.xText draft.content)
      draft.file (draft.platforms.contains "x" && decide (counts.x < DAILY_CAP_X))
    let countsX := xr.2.1
    let lr := draftArm env dryRun .linkedin countsX
      (jsOrText draft.linkedinText draft.content) draft.file
      (draft.platforms.contains "linkedin" &&
        decide (countsX.linkedin < DAILY_CAP_LINKEDIN))
    let counts' := lr.2.1
    let calls := xr.2.2 ++ lr.2.2
    if xr.1 || lr.1 then
      (({ st with draftsPosted := st.draftsPosted ++
          [{ file := draft.file, atTime := nowMs / 1000,
             platforms := (if xr.1 then ["x"] else []) ++ (if lr.1 then ["linkedin"] else []),
             dryRun := dryRun }] }, counts'), calls)
    else ((st, counts'), calls)

/-- Fold of `processDraft` over the loaded drafts. -/
def processDraftsAux (env : Env) (dryRun : Bool) (nowMs : Int) :
    List Draft → (CrosspostState × DailyCounts) →
    (CrosspostState × DailyCounts) × List Call
  | [], sc => (sc, [])
  | d :: ds, sc =>
    let r := processDraft env dryRun nowMs sc d
    let r2 := processDraftsAux env dryRun nowMs ds r.1
    (r2.1, r.2 ++ r2.2)

/-! ## A whole run, and a day of runs -/

/-- `getDailyCounts`: reset the counters when the stored date is not
today. -/
def getDailyCounts (today : String) (st : CrosspostState) : DailyCounts :=
  if st.dailyCounts.date ≠ today then
    { date := today, x := 0, linkedin := 0, includesDryRun := false }
  else st.dailyCounts

/-- The counters a run starts from: `getDailyCounts` plus the legacy
`_includesDryRun` reset of `main`. -/
def initialCounts (today : String) (st : CrosspostState) : DailyCounts :=
  let counts0 := getDailyCounts today st
  if counts0.includesDryRun then
    { counts0 with x := 0, linkedin := 0, includesDryRun := false }
  else counts0

/-- One full run of `main` (drafts first, then the scanned candidates),
returning the saved state and all real publisher calls. -/
def runMain (env : Env) (dryRun : Bool) (now nowMs : Int) (today : String)
    (st0 : CrosspostState) (drafts : List Draft) (posts : List NostrEvent) :
    CrosspostState × List Call :=
  let counts1 := initialCounts today st0
  let dr := processDraftsAux env dryRun nowMs drafts (st0, counts1)
  let pr := runPostsAux env dryRun now (dedupPosts posts []) dr.1
  ({ pr.1.1 with lastCheck := now, dailyCounts := pr.1.2 }, dr.2 ++ pr.2)

/-- Inputs of one run within a day. -/
structure RunInput where
  dryRun : Bool
  now : Int
  nowMs : Int
  drafts : List Draft
  posts : List NostrEvent

/-- A sequence of runs on the same calendar date, threading the persisted
state. -/
def daySim (env : Env) (today : String) :
    List RunInput → CrosspostState → CrosspostState × List Call
  | [], st => (st, [])
  | r :: rs, st =>
    let one := runMain env r.dryRun r.now r.nowMs today st r.drafts r.posts
    let rest := daySim env today rs one.1
    (rest.1, one.2 ++ rest.2)

/-! ## X threading formatter (`threadText`/`findSplitPoint`) -/

/-- `MAX_TWEET_CHARS` from the X formatter. -/
def MAX_TWEET_CHARS : Nat := 280

/-- `threadIndicatorLen`: the ` (X/Y)` reservation. -/
def threadIndicatorLen : Nat := 6

/-- The needle occurs at position `i`. -/
def idxMatches (l needle : List Char) (i : Nat) : Bool :=
  startsWithL (l.drop i) needle

/-- JS `String.prototype.lastIndexOf(needle, fromIndex)`: the largest
match position `≤ upTo`, `none` for the `-1` sentinel. -/
def lastIndexOfL (l needle : List Char) (upTo : Nat) : Option Nat :=
  ((List.range (upTo + 1)).filter (idxMatches l needle)).getLast?

/-- Word-break fallback of `findSplitPoint` (`wordBreak > maxLen * 0.3`,
else hard cut). -/
def fspWord (text : List Char) (maxLen : Nat) : Nat :=
  match lastIndexOfL text (strL " ") maxLen with
  | some w => if 3 * maxLen < 10 * w then w else maxLen
  | none => maxLen

/-- Sentence-break fallback of `findSplitPoint`
(`sentenceBreak > maxLen * 0.5`). -/
def fspSent (text : List Char) (maxLen : Nat) : Nat :=
  match lastIndexOfL text (strL ". ") maxLen with
  | some s => if maxLen < 2 * s then s + 1 else fspWord text maxLen
  | none => fspWord text maxLen

/-- `findSplitPoint` from the X formatter: paragraph break, then sentence
break, then word break, then hard cut. -/
def findSplitPoint (text : List Char) (maxLen : Nat) : Nat :=
  if text.length ≤ maxLen then text.length
  else
    match lastIndexOfL text (strL "\n\n") maxLen with
    | some p => if maxLen < 2 * p then p else fspSent text maxLen
    | none => fspSent text maxLen

/-- Length bound for `dropTrail`. -/
theorem dropTrail_length_le (l : List Char) : (dropTrail l).length ≤ l.length := by
  induction l with
  | nil => simp [dropTrail]
  | cons c cs ih =>
    simp only [dropTrail]
    cases h : dropTrail cs with
    | nil =>
      by_cases hw : isWs c
      · simp [hw]
      · simp [hw]
    | cons r rs =>
      rw [h] at ih
      simp only [List.length_cons] at ih ⊢
      omega

/-- Length bound for `trimL`. -/
theorem trimL_length_le (l : List Char) : (trimL l).length ≤ l.length :=
  Nat.le_trans (dropTrail_length_le _) (len_dropWhile_le _ _)

/-- `findSplitPoint` always advances when the input and the ceiling are
nonempty (every branch returns a positive index). -/
theorem findSplitPoint_pos (text : List Char) (maxLen : Nat)
    (hm : 1 ≤ maxLen) (ht : 1 ≤ text.length) :
    1 ≤ findSplitPoint text maxLen := by
  have hw : 1 ≤ fspWord text maxLen := by
    unfold fspWord
    cases lastIndexOfL text (strL " ") maxLen with
    | none => exact hm
    | some w =>
      by_cases h : 3 * maxLen < 10 * w
      · simp only [h, if_true]
        omega
      · simp [h, hm]
  have hs : 1 ≤ fspSent text maxLen := by
    unfold fspSent
    cases lastIndexOfL text (strL ". ") maxLen with
    | none => exact hw
    | some s =>
      by_cases h : maxLen < 2 * s
      · simp [h]
      · simp [h, hw]
  unfold findSplitPoint
  by_cases h : text.length ≤ maxLen
  · simp [h, ht]
  · simp only [h, if_false]
    cases lastIndexOfL text (strL "\n\n") maxLen with
    | none => exact hs
    | some p =>
      by_cases h2 : maxLen < 2 * p
      · simp only [h2, if_true]
        omega
      · simp [h2, hs]

/-- The chunking loop of `threadText`: emit trimmed slices until the
remainder (plus footer and indicator reservation) fits. -/
def threadLoop (flen : Nat) (remaining : List Char) : List (List Char) :=
  if h0 : remaining.length = 0 then []
  else if (remaining.length : Int) ≤ (MAX_TWEET_CHARS : Int) - flen - threadIndicatorLen then
    [remaining]
  else
    let maxChunk := MAX_TWEET_CHARS - threadIndicatorLen
    let sp := findSplitPoint remaining maxChunk
    trimL (remaining.take sp) :: threadLoop flen (trimL (remaining.drop sp))
termination_by remaining.length
decreasing_by
  have hsp : 1 ≤ findSplitPoint remaining (MAX_TWEET_CHARS - threadIndicatorLen) := by
    apply findSplitPoint_pos
    · decide
    · omega
  have h1 := trimL_length_le (remaining.drop (findSplitPoint remaining (MAX_TWEET_CHARS - threadIndicatorLen)))
  simp only [List.length_drop] at h1
  omega

/-- The ` (i/N)` thread position indicator. -/
def indicator (j n : Nat) : String := s!" ({j}/{n})"

/-- The decoration pass of `threadText`: position indicators on every
segment of a thread, the footer on the last segment (or on the single
segment). -/
def addIndicators (footer : List Char) (tweets : List (List Char)) : List (List Char) :=
  let n := tweets.length
  if 1 < n then
    tweets.mapIdx (fun i t =>
      if i = n - 1 then t ++ footer ++ strL (indicator (i + 1) n)
      else t ++ strL (indicator (i + 1) n))
  else
    match tweets with
    | [t] => [t ++ footer]
    | other => other

/-- `threadText` from the X formatter: single segment when the text plus
footer fits, otherwise the chunking loop followed by decoration. -/
def threadText (text footer : List Char) (footerEffectiveLen : Nat) : List (List Char) :=
  if (text.length : Int) ≤ (MAX_TWEET_CHARS : Int) - footerEffectiveLen then
    [text ++ footer]
  else addIndicators footer (threadLoop footerEffectiveLen text)

/-- The list is all whitespace. -/
def allWsB (l : List Char) : Bool := l.all isWs

/-- `WsJoin chunks t`: the string `t` is the concatenation of the chunks
interleaved (and bracketed) with whitespace-only fillers — the
"reconstructs the original modulo whitespace trimmed at split points"
relation of the threading round-trip. -/
inductive WsJoin : List (List Char) → List Char → Prop where
  | nil : ∀ w, allWsB w = true → WsJoin [] w
  | cons : ∀ c cs w rest, allWsB w = true → WsJoin cs rest →
      WsJoin (c :: cs) (w ++ c ++ rest)

/-! ## Spec-side reference definitions and concrete fixtures -/

/-- Insert a word into a list sorted by decreasing length. -/
def insertByLen (w : List Char) : List (List Char) → List (List Char)
  | [] => [w]
  | v :: vs => if v.length < w.length then w :: v :: vs else v :: insertByLen w vs

/-- Sort words by decreasing length (stable insertion sort). -/
def sortByLenDesc : List (List Char) → List (List Char)
  | [] => []
  | w :: ws => insertByLen w (sortByLenDesc ws)

/-- Reference definition following the specification text for the trending
bonus: "extract the 3 longest words (≥5 characters) from the body (after
removing reference/url tokens)".  Used only to compare the specified
extraction with the one implemented by the source. -/
def specThreeLongestWords (content : List Char) : List (List Char) :=
  (sortByLenDesc ((splitWs (scrub matchHttpTok (scrub matchNostrTok content))).filter
    (fun w => decide (4 < w.length)))).take 3

/-- Disjunction of the personal/family blocklist entries. -/
def familyTermMatch (body : List Char) : Bool :=
  cwBB "family" (lowerL body) || cwBB "kid" (lowerL body) || cwBB "kids" (lowerL body) ||
    cwBB "wife" (lowerL body) || cwBB "katie" (lowerL body) || cwBB "logan" (lowerL body) ||
    cwBB "halee" (lowerL body) || cwBB "therapy" (lowerL body) ||
    cwBB "doctor" (lowerL body) || cwBB "appointment" (lowerL body)

/-- The id carries a real (non-dry-run) entry for the platform. -/
def nonDryB (st : CrosspostState) (id : String) (p : Platform) : Bool :=
  isNonDry (getCross (storedCross st id) p)

/-- The id carries any entry for the platform. -/
def entryB (st : CrosspostState) (id : String) (p : Platform) : Bool :=
  (getCross (storedCross st id) p).isSome

/-- Successful publish calls to a platform within a call log. -/
def sucCalls (p : Platform) (calls : List Call) : Nat :=
  calls.countP (fun c => c.ok && decide (c.platform = p))

/-- All publish calls to a platform within a call log (successful or
not). -/
def allCalls (p : Platform) (calls : List Call) : Nat :=
  calls.countP (fun c => decide (c.platform = p))

/-- Number of runs of a day that observe a stale counter date (and hence
reset the counters). -/
def countResets (env : Env) (today : String) :
    List RunInput → CrosspostState → Nat
  | [], _ => 0
  | r :: rs, st =>
    (if st.dailyCounts.date ≠ today then 1 else 0) +
      countResets env today rs
        (runMain env r.dryRun r.now r.nowMs today st r.drafts r.posts).1

/-- The states saved after each run of a day. -/
def statesAfter (env : Env) (today : String) :
    List RunInput → CrosspostState → List CrosspostState
  | [], _ => []
  | r :: rs, st =>
    let st1 := (runMain env r.dryRun r.now r.nowMs today st r.drafts r.posts).1
    st1 :: statesAfter env today rs st1

/-- Relation between the counters before and after a stretch of
processing and the emitted calls: dates and the dry-run marker are
untouched, each counter grows exactly by the number of successful real
publishes to its platform, and a counter within its cap stays within its
cap. -/
def CountsFold (c c' : DailyCounts) (calls : List Call) : Prop :=
  c'.date = c.date ∧ c'.includesDryRun = c.includesDryRun ∧
  c'.x = c.x + (sucCalls Platform.x calls : Int) ∧
  (c.x ≤ DAILY_CAP_X → c'.x ≤ DAILY_CAP_X) ∧
  c'.linkedin = c.linkedin + (sucCalls Platform.linkedin calls : Int) ∧
  (c.linkedin ≤ DAILY_CAP_LINKEDIN → c'.linkedin ≤ DAILY_CAP_LINKEDIN)

/-- The day invariant of a saved state: counters are dated today, the
legacy dry-run marker is clear, and each counter sits between zero and its
cap. -/
def DayInv (today : String) (st : CrosspostState) : Prop :=
  st.dailyCounts.date = today ∧ st.dailyCounts.includesDryRun = false ∧
  0 ≤ st.dailyCounts.x ∧ st.dailyCounts.x ≤ DAILY_CAP_X ∧
  0 ≤ st.dailyCounts.linkedin ∧ st.dailyCounts.linkedin ≤ DAILY_CAP_LINKEDIN

/-- An environment whose publishers always succeed, with a fixed
engagement snapshot meeting the X threshold. -/
def env0 : Env :=
  { publish := fun _ _ => true, publishNative := fun _ _ => true,
    engagement := fun _ => ⟨40, 0, 0, 0⟩, searchHot := fun _ => 0,
    nakEncode := fun _ => "" }

/-- An environment whose real publishers always fail. -/
def envFail : Env :=
  { publish := fun _ _ => false, publishNative := fun _ _ => false,
    engagement := fun _ => ⟨40, 0, 0, 0⟩, searchHot := fun _ => 0,
    nakEncode := fun _ => "" }

/-- Fresh persisted state (the default of `loadState`). -/
def emptyState : CrosspostState :=
  { lastCheck := 0, posted := [], skipped := [],
    dailyCounts := { date := "1970-01-01", x := 0, linkedin := 0, includesDryRun := false },
    draftsPosted := [] }

/-- A 56-character X-worthy body used by the concrete scenarios. -/
def bodyBitcoin : List Char :=
  strL "bitcoin is digital sound money for the whole world today"

/-- A candidate carrying the X-worthy body, old enough to process. -/
def mkPost (id : String) : NostrEvent :=
  { id := id, created_at := 0, kind := 1, tags := [], content := bodyBitcoin }

/-- The promoted casual body of the rewrite scenario: longer than 200
stripped characters, X-worthy, casual tone, no professional pattern. -/
def bodyPromoCasual : List Char :=
  strL ("bitcoin fixes the money and nostr fixes the feed lmao. " ++
    "bitcoin fixes the money and nostr fixes the feed lmao. " ++
    "bitcoin fixes the money and nostr fixes the feed lmao. " ++
    "bitcoin fixes the money and nostr fixes the feed lmao.")

/-- The 40-character family-terms body of the classification scenario. -/
def bodyFamily : List Char := strL "Spent the day with my wife and the kids."

/-- A body whose first three long words are not its three longest words. -/
def bodyLongWords : List Char :=
  strL "abcde fghij klmno verylongwordone verylongwordtwo verylongwordthree"

/-- A casual body that also matches the professional pattern set
directly (`business`), so the classifier flags it for rewrite. -/
def bodyCasualBiz : List Char :=
  strL "our business keeps building bitcoin and nostr tools lmao every day this quarter"

/-- A young candidate (one hundred seconds old at `now = 200`). -/
def postYoung : NostrEvent :=
  { id := "young1", created_at := 100, kind := 1, tags := [], content := bodyBitcoin }

/-- The candidate carrying the promoted casual body. -/
def postPromo : NostrEvent :=
  { id := "promo1", created_at := 0, kind := 1, tags := [], content := bodyPromoCasual }

/-- The candidate carrying the flagged professional body. -/
def postCasualBiz : NostrEvent :=
  { id := "biz1", created_at := 0, kind := 1, tags := [], content := bodyCasualBiz }

/-- An environment with engagement meeting the LinkedIn threshold. -/
def envHi : Env :=
  { publish := fun _ _ => true, publishNative := fun _ _ => true,
    engagement := fun _ => ⟨60, 0, 0, 0⟩, searchHot := fun _ => 0,
    nakEncode := fun _ => "" }

/-- A real (non-dry-run) publish entry. -/
def entryReal : CrossEntry := { atTime := 500, dryRun := false, flagged := false }

/-- A Post Record carrying a real X entry only. -/
def recPosted : PostRecord :=
  { nevent := "nv", engagement := ⟨0, 0, 0, 0⟩, score := 0, trendingBonus := 0,
    crossPosted := ⟨some entryReal, none⟩, content := [], kind := 1, deleted := false }

/-- A state in which candidate `e1` is already really posted on X. -/
def stPosted : CrosspostState :=
  { lastCheck := 0, posted := [("e1", recPosted)], skipped := [],
    dailyCounts := { date := "1970-01-01", x := 0, linkedin := 0, includesDryRun := false },
    draftsPosted := [] }

/-- `isPre a b`: `a` is a prefix of `b`. -/
def isPre (a b : List Char) : Prop := ∃ t, b = a ++ t

/-- A Post Record for `e1` carrying a real X entry only and the truncated
copy of the candidate body (the partial-post situation). -/
def recPartial : PostRecord :=
  { nevent := "nv", engagement := ⟨0, 0, 0, 0⟩, score := 0, trendingBonus := 0,
    crossPosted := ⟨some entryReal, none⟩, content := bodyBitcoin.take 200,
    kind := 1, deleted := false }

/-- A state in which candidate `e1` was partially posted (X only) with its
truncated body stored. -/
def stPartial : CrosspostState :=
  { lastCheck := 0, posted := [("e1", recPartial)], skipped := [],
    dailyCounts := { date := "1970-01-01", x := 0, linkedin := 0, includesDryRun := false },
    draftsPosted := [] }

/-- An environment whose trending search always returns one result. -/
def envSearch1 : Env :=
  { publish := fun _ _ => true, publishNative := fun _ _ => true,
    engagement := fun _ => ⟨40, 0, 0, 0⟩, searchHot := fun _ => 1,
    nakEncode := fun _ => "" }

/-- The four-candidate batch of the daily-cap scenarios. -/
def capPosts : List NostrEvent :=
  [mkPost "e1", mkPost "e2", mkPost "e3", mkPost "e4"]

/-- A non-dry-run input processing the four-candidate batch. -/
def capRun : RunInput :=
  { dryRun := false, now := 10000, nowMs := 0, drafts := [], posts := capPosts }

/-! # Theorems for the specification claims -/

/-- Shared helper: a blocklisted body classifies as a skip with the
blocklist reason, before any other rule is consulted. -/
theorem classify_of_blocklisted (body : List Char) (h : isBlocklisted body = true) :
    classifyContent body = .skip "blocklisted content" := by
  unfold classifyContent
  simp [h]

/-- C3: for every body matching any blocklist pattern, classification
returns skip with the blocklist reason — no topic keyword or engagement
input can override it, since classification is a pure function of the body
that tests the blocklist first. -/
theorem blocklist_absolute (body : List Char) (h : isBlocklisted body = true) :
    classifyContent body = .skip "blocklisted content" :=
  classify_of_blocklisted body h

/-- Witness for C3 at a concrete blocklisted body. -/
theorem blocklist_absolute_witness :
    isBlocklisted (strL "buy order now please friends") = true ∧
      classifyContent (strL "buy order now please friends") = .skip "blocklisted content" :=
  ⟨by decide, blocklist_absolute _ (by decide)⟩

/-- Shared helper: a family-term match implies a blocklist match (the
family patterns are blocklist entries). -/
theorem isBlocklisted_of_family (body : List Char) (h : familyTermMatch body = true) :
    isBlocklisted body = true := by
  unfold familyTermMatch at h
  unfold isBlocklisted BLOCKLIST_PATTERNS
  simp only [List.any_cons, List.any_nil, Bool.or_eq_true] at h ⊢
  tauto

/-- C6 counterexample: a 40-character body mentioning only family terms is
skipped with reason `blocklisted content`, not with the casual/personal
reason the claim states. -/
theorem family_reason_counterexample :
    classifyContent bodyFamily = .skip "blocklisted content" ∧
      bodyFamily.length = 40 ∧
      familyTermMatch bodyFamily = true ∧
      Classification.skip "blocklisted content" ≠ .skip "casual/personal content" := by
  refine ⟨?_, by decide, by decide, by decide⟩
  exact classify_of_blocklisted _ (isBlocklisted_of_family _ (by decide))

/-- C6 (amended): a 40-character body mentioning a family term is skipped
with reason `blocklisted content`; the family terms sit on the blocklist,
which fires before the minimum-length check (the conclusion holds although
a 40-character body is below the 50-character minimum). -/
theorem family_terms_blocklisted (body : List Char) (h40 : body.length = 40)
    (h : familyTermMatch body = true) :
    classifyContent body = .skip "blocklisted content" :=
  classify_of_blocklisted body (isBlocklisted_of_family body h)

/-- Witness for the amended C6 at the concrete 40-character body. -/
theorem family_terms_blocklisted_witness :
    bodyFamily.length = 40 ∧ familyTermMatch bodyFamily = true ∧
      classifyContent bodyFamily = .skip "blocklisted content" :=
  ⟨by decide, by decide, family_terms_blocklisted bodyFamily (by decide) (by decide)⟩

/-- Shared helper: every extracted trending word is longer than four
characters. -/
theorem trendingWords_len (content : List Char) :
    ∀ w ∈ trendingWords content, 4 < w.length := by
  intro w hw
  unfold trendingWords at hw
  have hmem := List.mem_of_mem_take hw
  have := (List.mem_filter.mp hmem).2
  exact of_decide_eq_true this

/-- Shared helper: the joined phrase of a nonempty trending word list is
nonempty. -/
theorem joinSpace_trending_ne (content : List Char)
    (h : trendingWords content ≠ []) : joinSpace (trendingWords content) ≠ [] := by
  rcases hw : trendingWords content with _ | ⟨w, ws⟩
  · exact absurd hw h
  · have h4 : 4 < w.length := trendingWords_len content w (by rw [hw]; exact List.mem_cons_self _ _)
    have hne : w ≠ [] := by
      intro he
      rw [he] at h4
      simp at h4
    cases ws with
    | nil =>
      simp only [joinSpace]
      exact hne
    | cons v vs =>
      simp only [joinSpace]
      intro hcontr
      rcases List.append_eq_nil.mp hcontr with ⟨h1, h2⟩
      exact List.cons_ne_nil _ _ h2

/-- C8 counterexample: the source takes the first three words of at least
five characters in body order, not the three longest. -/
theorem trending_three_longest_counterexample :
    trendingWords bodyLongWords = [strL "abcde", strL "fghij", strL "klmno"] ∧
      specThreeLongestWords bodyLongWords =
        [strL "verylongwordthree", strL "verylongwordtwo", strL "verylongwordone"] ∧
      trendingWords bodyLongWords ≠ specThreeLongestWords bodyLongWords := by
  decide

/-- C8 (amended): the trending bonus removes reference and URL tokens,
takes the first three words of at least five characters as a single
phrase, and yields 5 exactly when the hot search on that phrase returns
any result — 0 on an empty phrase, empty results or query failure (a
failed query is an empty result list), never an error. -/
theorem trending_bonus_amended (env : Env) (content : List Char) :
    (checkTrending env content = 0 ∨ checkTrending env content = 5) ∧
    (trendingWords content = [] → checkTrending env content = 0) ∧
    (env.searchHot (String.mk (strL "sort:hot " ++ joinSpace (trendingWords content))) = 0 →
      checkTrending env content = 0) ∧
    (trendingWords content ≠ [] →
      0 < env.searchHot (String.mk (strL "sort:hot " ++ joinSpace (trendingWords content))) →
      checkTrending env content = 5) := by
  refine ⟨?_, ?_, ?_, ?_⟩
  · simp only [checkTrending]
    split
    · exact Or.inl rfl
    · split
      · exact Or.inr rfl
      · exact Or.inl rfl
  · intro h
    simp [checkTrending, h, joinSpace]
  · intro h
    simp only [checkTrending]
    split
    · rfl
    · rw [h]
      simp
  · intro hne hpos
    simp only [checkTrending]
    rw [if_neg (joinSpace_trending_ne content hne), if_pos hpos]

/-- Witness for the amended C8 at a concrete body and search oracle. -/
theorem trending_bonus_amended_witness :
    trendingWords (strL "abcde fghij") ≠ [] ∧
      0 < envSearch1.searchHot
        (String.mk (strL "sort:hot " ++ joinSpace (trendingWords (strL "abcde fghij")))) ∧
      checkTrending envSearch1 (strL "abcde fghij") = 5 :=
  ⟨by decide, by decide,
    (trending_bonus_amended envSearch1 (strL "abcde fghij")).2.2.2 (by decide) (by decide)⟩

/-- C5: a candidate below the minimum-age window that passed the earlier
dedup checks is skipped with no state change at all — no Skip Record, no
Post Record, no counter change and no publisher call — so the next run
re-evaluates it. -/
theorem too_young_not_persisted
    (env : Env) (dryRun : Bool) (now : Int) (sc : CrosspostState × DailyCounts)
    (post : NostrEvent)
    (h1 : lookupA sc.1.skipped post.id = none)
    (h2 : postedBlocked sc.1 post.id = false)
    (h3 : isReplyPost post = false)
    (h4 : post.kind ≠ 6)
    (h5 : hasQuoteRef post.content = false)
    (h6 : now - post.created_at < MIN_AGE_SECONDS) :
    processPost env dryRun now sc post = (sc, []) := by
  simp [processPost, h1, h2, h3, h4, h5, h6]

/-- Witness for C5 at a concrete one-hundred-second-old candidate. -/
theorem too_young_not_persisted_witness :
    lookupA emptyState.skipped postYoung.id = none ∧
      (200 : Int) - postYoung.created_at < MIN_AGE_SECONDS ∧
      processPost env0 false 200 (emptyState, emptyState.dailyCounts) postYoung =
        ((emptyState, emptyState.dailyCounts), []) :=
  ⟨by decide, by decide,
    too_young_not_persisted env0 false 200 (emptyState, emptyState.dailyCounts) postYoung
      (by decide) (by decide) (by decide) (by decide) (by decide) (by decide)⟩

/-! ## Helper lemmas about the association-list state and the publish
branches -/

/-- Shared helper: looking up the key just set returns the new value. -/
theorem lookupA_setA_self {α : Type} (l : List (String × α)) (k : String) (v : α) :
    lookupA (setA l k v) k = some v := by
  induction l with
  | nil => simp [setA, lookupA]
  | cons e es ih =>
    by_cases h : e.1 = k
    · simp [setA, h, lookupA]
    · simp [setA, h, lookupA, ih]

/-- Shared helper: setting one key leaves lookups of other keys
unchanged. -/
theorem lookupA_setA_ne {α : Type} (l : List (String × α)) (k k' : String) (v : α)
    (h : k' ≠ k) : lookupA (setA l k v) k' = lookupA l k' := by
  induction l with
  | nil => simp [setA, lookupA, Ne.symm h]
  | cons e es ih =>
    by_cases he : e.1 = k
    · have hkk : ¬(k = k') := fun hc => h hc.symm
      have he2 : ¬(e.1 = k') := by rw [he]; exact hkk
      simp [setA, he, lookupA, hkk, he2]
    · simp only [setA, he, if_false, lookupA]
      by_cases he2 : e.1 = k'
      · simp [he2]
      · simp [he2, ih]

/-- Shared helper: the X arm does not touch the LinkedIn counter, the
date, or the dry-run marker. -/
theorem xBranch_counts_frame (env : Env) (dryRun : Bool) (now : Int)
    (counts : DailyCounts) (nevent id : String) (cond : Bool) :
    (xBranch env dryRun now counts nevent id cond).2.1.linkedin = counts.linkedin ∧
      (xBranch env dryRun now counts nevent id cond).2.1.date = counts.date ∧
      (xBranch env dryRun now counts nevent id cond).2.1.includesDryRun =
        counts.includesDryRun := by
  unfold xBranch crossPostCall
  dsimp only
  repeat' split
  all_goals simp_all

/-- Shared helper: every call emitted by the X arm targets platform X at
the candidate id. -/
theorem xBranch_calls (env : Env) (dryRun : Bool) (now : Int)
    (counts : DailyCounts) (nevent id : String) (cond : Bool) :
    ∀ c ∈ (xBranch env dryRun now counts nevent id cond).2.2,
      c.platform = Platform.x ∧ c.target = .event id := by
  unfold xBranch crossPostCall
  dsimp only
  repeat' split
  all_goals simp_all

/-- Shared helper: every call emitted by the LinkedIn arm targets
platform LinkedIn at the candidate id. -/
theorem liBranch_calls (env : Env) (dryRun : Bool) (now : Int)
    (counts : DailyCounts) (nevent id : String) (cond needsRewrite : Bool) :
    ∀ c ∈ (liBranch env dryRun now counts nevent id cond needsRewrite).2.2,
      c.platform = Platform.linkedin ∧ c.target = .event id := by
  unfold liBranch crossPostCall
  dsimp only
  repeat' split
  all_goals simp_all

/-- Shared helper: whenever classification returns an eligibility record,
the rewrite flag equals casual-tone AND a direct professional-pattern
match; the length-based promotion plays no part in it. -/
theorem classify_needsRewrite_eq (body : List Char) (x li nr : Bool)
    (h : classifyContent body = .eligible x li nr) :
    nr = (CASUAL_TONE_PATTERNS.any (fun p => p body) &&
      LINKEDIN_PATTERNS.any (fun p => p body)) := by
  by_cases hb : isBlocklisted body = true
  · rw [classify_of_blocklisted body hb] at h
    cases h
  · have hb' : isBlocklisted body = false := by
      revert hb
      cases isBlocklisted body <;> simp
    by_cases hs : SKIP_PATTERNS.any (fun p => p body) = true
    · revert h
      simp [classifyContent, hb', hs]
    · have hs' : SKIP_PATTERNS.any (fun p => p body) = false := by
        revert hs
        cases SKIP_PATTERNS.any (fun p => p body) <;> simp
      by_cases hlen : (stripNostrArtifacts body).length < MIN_CONTENT_LENGTH
      · revert h
        simp [classifyContent, hb', hs', hlen]
      · by_cases hoff : (!(XWORTHY_PATTERNS.any (fun p => p body)) &&
            !(LINKEDIN_PATTERNS.any (fun p => p body))) = true
        · revert h
          simp [classifyContent, hb', hs', hlen, hoff]
        · have hoff' : (!(XWORTHY_PATTERNS.any (fun p => p body)) &&
              !(LINKEDIN_PATTERNS.any (fun p => p body))) = false := by
            revert hoff
            cases (!(XWORTHY_PATTERNS.any (fun p => p body)) &&
              !(LINKEDIN_PATTERNS.any (fun p => p body))) <;> simp
          have hcls : classifyContent body =
              .eligible (XWORTHY_PATTERNS.any (fun p => p body))
                ((LINKEDIN_PATTERNS.any (fun p => p body)) ||
                  ((XWORTHY_PATTERNS.any (fun p => p body)) &&
                    decide (200 < (stripNostrArtifacts body).length)))
                ((CASUAL_TONE_PATTERNS.any (fun p => p body)) &&
                  (LINKEDIN_PATTERNS.any (fun p => p body))) := by
            simp only [classifyContent, hb', hs', Bool.false_eq_true, if_false, hlen, hoff',
              if_true]
          rw [hcls] at h
          injection h with hx hli hnr
          exact hnr.symm

/-- Shared helper: an absent-or-dry-run entry is overwritten by the
incoming data in the merge. -/
theorem mergeEntry_overwrite (old : Option CrossEntry) (d : CrossEntry)
    (h : isNonDry old = false) : mergeEntry old (some d) = some d := by
  cases old with
  | none => rfl
  | some e =>
    simp only [isNonDry, Bool.not_eq_false'] at h
    simp [mergeEntry, h]

/-- Shared helper: when the professional branch of the publish phase is
reached with the rewrite flag set, a flagged entry is recorded and no
LinkedIn publisher call is made. -/
theorem publishPhase_rewrite (env : Env) (dryRun : Bool) (now : Int)
    (st : CrosspostState) (counts : DailyCounts) (post : NostrEvent)
    (cx meetsX : Bool) (engagement : Engagement) (trendingBonus totalScore : Nat)
    (h10 : counts.linkedin < DAILY_CAP_LINKEDIN)
    (h11 : isNonDry (storedCross st post.id).linkedin = false) :
    getCross (storedCross
        (publishPhase env dryRun now st counts post cx true true meetsX true
          engagement trendingBonus totalScore).1.1 post.id) Platform.linkedin =
      some { atTime := now, dryRun := false, flagged := true } ∧
    ∀ c ∈ (publishPhase env dryRun now st counts post cx true true meetsX true
        engagement trendingBonus totalScore).2, c.platform ≠ Platform.linkedin := by
  simp only [publishPhase]
  set nevent := eventToNevent env post.id with hnev
  set condX := (cx && meetsX && decide (counts.x < DAILY_CAP_X) &&
    !isNonDry (storedCross st post.id).x) with hcondX
  have hxframe := xBranch_counts_frame env dryRun now counts nevent post.id condX
  set xr := xBranch env dryRun now counts nevent post.id condX with hxr
  have hcondLI : (true && true && decide (xr.2.1.linkedin < DAILY_CAP_LINKEDIN) &&
      !isNonDry (storedCross st post.id).linkedin) = true := by
    rw [hxframe.1, h11, decide_eq_true h10]
    rfl
  rw [hcondLI]
  simp only [liBranch, if_true]
  constructor
  · simp only [Option.isSome_some, Bool.or_true, if_true]
    simp only [storedCross, lookupA_setA_self, getCross, mergeCross]
    exact mergeEntry_overwrite _ _ h11
  · intro c hc
    simp only [Option.isSome_some, Bool.or_true, if_true, List.append_nil] at hc
    have hcall := xBranch_calls env dryRun now counts nevent post.id condX c hc
    rw [hcall.1]
    intro hcontr
    cases hcontr

/-- C7 (amended): the classifier sets the rewrite flag exactly when a
casual-tone pattern AND a direct professional-pattern match hold (a body
eligible for the professional platform only through the length-based
promotion is not flagged; see the counterexample); and when the flag is
set and the professional branch is reached, the engine records a flagged
entry for that platform and never calls its publisher. -/
theorem needs_rewrite_flagged
    (env : Env) (dryRun : Bool) (now : Int) (sc : CrosspostState × DailyCounts)
    (post : NostrEvent) (cx : Bool)
    (h1 : lookupA sc.1.skipped post.id = none)
    (h2 : postedBlocked sc.1 post.id = false)
    (h3 : isReplyPost post = false)
    (h4 : post.kind ≠ 6)
    (h5 : hasQuoteRef post.content = false)
    (h6 : ¬(now - post.created_at < MIN_AGE_SECONDS))
    (h7 : isDuplicateContent post.content sc.1.posted = false)
    (h8 : classifyContent post.content = .eligible cx true true)
    (h9 : THRESHOLD_LINKEDIN ≤ engScore (env.engagement post.id) +
      checkTrending env post.content)
    (h10 : sc.2.linkedin < DAILY_CAP_LINKEDIN)
    (h11 : nonDryB sc.1 post.id Platform.linkedin = false) :
    (∀ body x li nr, classifyContent body = .eligible x li nr →
      nr = (CASUAL_TONE_PATTERNS.any (fun p => p body) &&
        LINKEDIN_PATTERNS.any (fun p => p body))) ∧
    getCross (storedCross (processPost env dryRun now sc post).1.1 post.id)
        Platform.linkedin = some { atTime := now, dryRun := false, flagged := true } ∧
    ∀ c ∈ (processPost env dryRun now sc post).2, c.platform ≠ Platform.linkedin := by
  have hmeetsLI : decide (THRESHOLD_LINKEDIN ≤
      engScore (env.engagement post.id) + checkTrending env post.content) = true :=
    decide_eq_true h9
  have hred : processPost env dryRun now sc post =
      publishPhase env dryRun now sc.1 sc.2 post cx true true
        (decide (THRESHOLD_X ≤ engScore (env.engagement post.id) +
          checkTrending env post.content)) true
        (env.engagement post.id) (checkTrending env post.content)
        (engScore (env.engagement post.id) + checkTrending env post.content) := by
    simp [processPost, h1, h2, h3, h4, h5, h6, h7, h8, hmeetsLI]
  rw [hred]
  have hmain := publishPhase_rewrite env dryRun now sc.1 sc.2 post cx
    (decide (THRESHOLD_X ≤ engScore (env.engagement post.id) +
      checkTrending env post.content))
    (env.engagement post.id) (checkTrending env post.content)
    (engScore (env.engagement post.id) + checkTrending env post.content) h10 h11
  exact ⟨fun body x li nr h => classify_needsRewrite_eq body x li nr h,
    hmain.1, hmain.2⟩

set_option maxRecDepth 4096 in
/-- C7 counterexample: a casual-tone body eligible for the professional
platform only via the length-based promotion is NOT flagged for rewrite
(`needsRewrite = false`), and the engine does call the LinkedIn publisher
for it instead of recording a flagged entry. -/
theorem promotion_rewrite_counterexample :
    classifyContent bodyPromoCasual = .eligible true true false ∧
      CASUAL_TONE_PATTERNS.any (fun p => p bodyPromoCasual) = true ∧
      LINKEDIN_PATTERNS.any (fun p => p bodyPromoCasual) = false ∧
      200 < (stripNostrArtifacts bodyPromoCasual).length ∧
      ((processPost envHi false 10000 (emptyState, emptyState.dailyCounts)
          postPromo).2.filter
        (fun c => decide (c.platform = Platform.linkedin))).length = 1 := by
  decide

/-- Witness for the amended C7 at the flagged professional body. -/
theorem needs_rewrite_flagged_witness :
    classifyContent bodyCasualBiz = .eligible true true true ∧
      getCross (storedCross (processPost envHi false 10000
            (emptyState, emptyState.dailyCounts) postCasualBiz).1.1 postCasualBiz.id)
          Platform.linkedin = some { atTime := 10000, dryRun := false, flagged := true } ∧
      ∀ c ∈ (processPost envHi false 10000 (emptyState, emptyState.dailyCounts)
          postCasualBiz).2, c.platform ≠ Platform.linkedin :=
  (fun H => ⟨by decide, H.2.1, H.2.2⟩)
    (needs_rewrite_flagged envHi false 10000 (emptyState, emptyState.dailyCounts)
      postCasualBiz true (by decide) (by decide) (by decide) (by decide) (by decide)
      (by decide) (by decide) (by decide) (by decide) (by decide) (by decide))

/-- Shared helper: `all` distributes over append (specialised form). -/
theorem allWsB_append (a b : List Char) :
    allWsB (a ++ b) = (allWsB a && allWsB b) := by
  simp [allWsB, List.all_append]

/-- Shared helper: whitespace filler can be prepended to a join. -/
theorem wsjoin_pad_front (cs : List (List Char)) (t u : List Char)
    (h : WsJoin cs t) (hu : allWsB u = true) : WsJoin cs (u ++ t) := by
  cases h with
  | nil w hw =>
    refine WsJoin.nil (u ++ t) ?_
    rw [allWsB_append, hu, hw]
    rfl
  | cons c cs' w rest hw hrest =>
    have he : u ++ (w ++ c ++ rest) = (u ++ w) ++ c ++ rest := by
      simp [List.append_assoc]
    rw [he]
    refine WsJoin.cons c cs' (u ++ w) rest ?_ hrest
    rw [allWsB_append, hu, hw]
    rfl

/-- Shared helper: whitespace filler can be appended to a join. -/
theorem wsjoin_pad_back (cs : List (List Char)) (t v : List Char)
    (h : WsJoin cs t) (hv : allWsB v = true) : WsJoin cs (t ++ v) := by
  induction h with
  | nil w hw =>
    refine WsJoin.nil (w ++ v) ?_
    rw [allWsB_append, hw, hv]
    rfl

  | cons c cs' w rest hw hrest ih =>
    have he : (w ++ c ++ rest) ++ v = w ++ c ++ (rest ++ v) := by
      simp [List.append_assoc]
    rw [he]
    exact WsJoin.cons c cs' w (rest ++ v) hw ih

/-- Shared helper: the leading whitespace taken by `trim` is all
whitespace. -/
theorem allWsB_takeWhile (l : List Char) : allWsB (l.takeWhile isWs) = true := by
  induction l with
  | nil => rfl
  | cons c cs ih =>
    by_cases hc : isWs c
    · simp [List.takeWhile_cons, hc, allWsB] at ih ⊢
    · simp [List.takeWhile_cons, hc, allWsB]

/-- Shared helper: `dropTrail` splits off an all-whitespace tail. -/
theorem dropTrail_decomp (l : List Char) :
    ∃ w, allWsB w = true ∧ l = dropTrail l ++ w := by
  induction l with
  | nil => exact ⟨[], rfl, rfl⟩
  | cons c cs ih =>
    rcases ih with ⟨w, hw, hcs⟩
    cases hdt : dropTrail cs with
    | nil =>
      by_cases hc : isWs c
      · refine ⟨c :: w, ?_, ?_⟩
        · simp [allWsB] at hw ⊢
          exact ⟨hc, hw⟩
        · simp only [dropTrail, hdt, hc, if_true, List.nil_append]
          rw [hdt] at hcs
          rw [List.nil_append] at hcs
          rw [← hcs]
      · refine ⟨w, hw, ?_⟩
        simp only [dropTrail, hdt, hc, if_false]
        rw [hdt] at hcs
        rw [List.nil_append] at hcs
        rw [← hcs]
        rfl
    | cons r rs =>
      refine ⟨w, hw, ?_⟩
      simp only [dropTrail, hdt]
      rw [hdt] at hcs
      rw [List.cons_append]
      rw [← hcs]

/-- Shared helper: `trim` splits a string into leading whitespace, the
trimmed core, and trailing whitespace. -/
theorem trimL_decomp (l : List Char) :
    ∃ w1 w2, allWsB w1 = true ∧ allWsB w2 = true ∧ l = w1 ++ trimL l ++ w2 := by
  rcases dropTrail_decomp (l.dropWhile isWs) with ⟨w2, hw2, hd⟩
  refine ⟨l.takeWhile isWs, w2, allWsB_takeWhile l, hw2, ?_⟩
  conv_lhs => rw [← List.takeWhile_append_dropWhile (p := isWs) (l := l)]
  rw [trimL, List.append_assoc, ← hd]

/-- Shared helper: the chunks produced by the threading loop interleave
with whitespace back to the input. -/
theorem threadLoop_wsjoin (flen : Nat) :
    ∀ n (rem : List Char), rem.length ≤ n → WsJoin (threadLoop flen rem) rem := by
  intro n
  induction n with
  | zero =>
    intro rem hlen
    have hz : rem = [] := List.length_eq_zero.mp (Nat.le_zero.mp hlen)
    subst hz
    rw [threadLoop]
    exact WsJoin.nil [] rfl
  | succ n ih =>
    intro rem hlen
    rw [threadLoop]
    by_cases h0 : rem.length = 0
    · rw [dif_pos h0]
      have hz : rem = [] := List.length_eq_zero.mp h0
      subst hz
      exact WsJoin.nil [] rfl
    · rw [dif_neg h0]
      by_cases hfit : (rem.length : Int) ≤ (MAX_TWEET_CHARS : Int) - flen - threadIndicatorLen
      · rw [if_pos hfit]
        have hj : WsJoin [rem] ([] ++ rem ++ []) :=
          WsJoin.cons rem [] [] [] rfl (WsJoin.nil [] rfl)
        simpa using hj
      · rw [if_neg hfit]
        have hsp1 : 1 ≤ findSplitPoint rem (MAX_TWEET_CHARS - threadIndicatorLen) :=
          findSplitPoint_pos rem _ (by decide) (by omega)
        have hlen2 : (trimL (rem.drop (findSplitPoint rem
            (MAX_TWEET_CHARS - threadIndicatorLen)))).length ≤ n := by
          have h1 := trimL_length_le (rem.drop (findSplitPoint rem
            (MAX_TWEET_CHARS - threadIndicatorLen)))
          simp only [List.length_drop] at h1
          omega
        have hIH := ih _ hlen2
        rcases trimL_decomp (rem.take (findSplitPoint rem
          (MAX_TWEET_CHARS - threadIndicatorLen))) with ⟨w1, w2, hw1, hw2, ht1⟩
        rcases trimL_decomp (rem.drop (findSplitPoint rem
          (MAX_TWEET_CHARS - threadIndicatorLen))) with ⟨w3, w4, hw3, hw4, ht2⟩
        have hrest := wsjoin_pad_front _ _ _ (wsjoin_pad_front _ _ _
          (wsjoin_pad_back _ _ _ hIH hw4) hw3) hw2
        have hjoin := WsJoin.cons
          (trimL (rem.take (findSplitPoint rem (MAX_TWEET_CHARS - threadIndicatorLen))))
          (threadLoop flen (trimL (rem.drop (findSplitPoint rem
            (MAX_TWEET_CHARS - threadIndicatorLen)))))
          w1
          (w2 ++ (w3 ++ (trimL (rem.drop (findSplitPoint rem
            (MAX_TWEET_CHARS - threadIndicatorLen))) ++ w4)))
          hw1 hrest
        have hrem := List.take_append_drop (findSplitPoint rem
          (MAX_TWEET_CHARS - threadIndicatorLen)) rem
        rw [ht1, ht2] at hrem
        have hassoc : (w1 ++ trimL (rem.take (findSplitPoint rem
              (MAX_TWEET_CHARS - threadIndicatorLen))) ++ w2) ++
            (w3 ++ trimL (rem.drop (findSplitPoint rem
              (MAX_TWEET_CHARS - threadIndicatorLen))) ++ w4) =
            w1 ++ trimL (rem.take (findSplitPoint rem
              (MAX_TWEET_CHARS - threadIndicatorLen))) ++
            (w2 ++ (w3 ++ (trimL (rem.drop (findSplitPoint rem
              (MAX_TWEET_CHARS - threadIndicatorLen))) ++ w4))) := by
          simp [List.append_assoc]
        rw [hassoc] at hrem
        rw [hrem] at hjoin
        exact hjoin

/-- C9: for a stripped body longer than the single-segment ceiling, the
segments produced by `threadText` are exactly the decorated chunks of the
threading loop, and those chunk texts (the segments with position
indicators and footer removed) concatenate — interleaved only with
whitespace dropped at the split points — back to the original stripped
body. -/
theorem threading_round_trip (text footer : List Char) (flen : Nat)
    (h : (MAX_TWEET_CHARS : Int) - flen < text.length) :
    threadText text footer flen = addIndicators footer (threadLoop flen text) ∧
      WsJoin (threadLoop flen text) text := by
  constructor
  · unfold threadText
    rw [if_neg (not_le.mpr h)]
  · exact threadLoop_wsjoin flen text.length text (le_refl _)

set_option maxRecDepth 8192 in
/-- Witness for C9 at a concrete 300-character body. -/
theorem threading_round_trip_witness :
    ((MAX_TWEET_CHARS : Int) - 55 < (List.replicate 300 'a').length) ∧
      (threadText (List.replicate 300 'a') (strL "F") 55 =
        addIndicators (strL "F") (threadLoop 55 (List.replicate 300 'a')) ∧
      WsJoin (threadLoop 55 (List.replicate 300 'a')) (List.replicate 300 'a')) :=
  ⟨by decide, threading_round_trip (List.replicate 300 'a') (strL "F") 55 (by decide)⟩

/-- Shared helper: merging never drops an existing entry. -/
theorem mergeEntry_isSome (old d : Option CrossEntry) (h : old.isSome = true) :
    (mergeEntry old d).isSome = true := by
  cases d with
  | none => exact h
  | some data =>
    cases old with
    | none => rfl
    | some e =>
      simp only [mergeEntry]
      split <;> rfl

/-- Shared helper: merging never turns a real entry into a dry-run one. -/
theorem mergeEntry_nonDry (old d : Option CrossEntry) (h : isNonDry old = true) :
    isNonDry (mergeEntry old d) = true := by
  cases d with
  | none => exact h
  | some data =>
    cases old with
    | none => cases h
    | some e =>
      simp only [isNonDry, Bool.not_eq_true'] at h
      by_cases hd : data.dryRun
      · simp [mergeEntry, h, hd, isNonDry]
      · simp [mergeEntry, h, hd, isNonDry]

/-- Shared helper: a `false` guard short-circuits the X arm. -/
theorem xBranch_false (env : Env) (dryRun : Bool) (now : Int) (counts : DailyCounts)
    (nevent id : String) :
    xBranch env dryRun now counts nevent id false = (none, counts, []) := rfl

/-- Shared helper: a `false` guard short-circuits the LinkedIn arm. -/
theorem liBranch_false (env : Env) (dryRun : Bool) (now : Int) (counts : DailyCounts)
    (nevent id : String) (needsRewrite : Bool) :
    liBranch env dryRun now counts nevent id false needsRewrite = (none, counts, []) := rfl

/-- Shared helper: the publish phase preserves existing platform entries,
keeps real entries real, and never calls a platform already carrying a
real entry for the processed candidate; all its calls target the
processed candidate. -/
theorem publishPhase_preserve (env : Env) (dryRun : Bool) (now : Int)
    (st : CrosspostState) (counts : DailyCounts) (post : NostrEvent)
    (cx cli needsRewrite meetsX meetsLI : Bool) (engagement : Engagement)
    (trendingBonus totalScore : Nat) (id : String) (p : Platform) :
    (entryB st id p = true →
      entryB (publishPhase env dryRun now st counts post cx cli needsRewrite meetsX meetsLI
        engagement trendingBonus totalScore).1.1 id p = true) ∧
    (nonDryB st id p = true →
      nonDryB (publishPhase env dryRun now st counts post cx cli needsRewrite meetsX meetsLI
        engagement trendingBonus totalScore).1.1 id p = true ∧
      ∀ c ∈ (publishPhase env dryRun now st counts post cx cli needsRewrite meetsX meetsLI
        engagement trendingBonus totalScore).2,
        ¬(c.platform = p ∧ c.target = CallTarget.event id)) := by
  by_cases hid : id = post.id
  case neg =>
    -- a different candidate: its Post Record is untouched and every call
    -- targets the processed candidate
    have hposted : ∀ (r : (CrosspostState × DailyCounts) × List Call),
        r = publishPhase env dryRun now st counts post cx cli needsRewrite meetsX meetsLI
          engagement trendingBonus totalScore →
        lookupA r.1.1.posted id = lookupA st.posted id := by
      intro r hr
      simp only [publishPhase] at hr
      split at hr <;> (subst hr; simp [lookupA_setA_ne _ _ _ _ hid])
    have hcalls : ∀ c ∈ (publishPhase env dryRun now st counts post cx cli needsRewrite
        meetsX meetsLI engagement trendingBonus totalScore).2,
        c.target = CallTarget.event post.id := by
      intro c hc
      simp only [publishPhase] at hc
      have hc2 : c ∈ (xBranch env dryRun now counts (eventToNevent env post.id) post.id
            (cx && meetsX && decide (counts.x < DAILY_CAP_X) &&
              !isNonDry (storedCross st post.id).x)).2.2 ++
          (liBranch env dryRun now (xBranch env dryRun now counts
              (eventToNevent env post.id) post.id
              (cx && meetsX && decide (counts.x < DAILY_CAP_X) &&
                !isNonDry (storedCross st post.id).x)).2.1
            (eventToNevent env post.id) post.id
            (cli && meetsLI && decide ((xBranch env dryRun now counts
                (eventToNevent env post.id) post.id
                (cx && meetsX && decide (counts.x < DAILY_CAP_X) &&
                  !isNonDry (storedCross st post.id).x)).2.1.linkedin <
                DAILY_CAP_LINKEDIN) &&
              !isNonDry (storedCross st post.id).linkedin) needsRewrite).2.2 := by
        revert hc
        split <;> (intro hc; exact hc)
      rcases List.mem_append.mp hc2 with hmem | hmem
      · exact (xBranch_calls _ _ _ _ _ _ _ c hmem).2
      · exact (liBranch_calls _ _ _ _ _ _ _ _ c hmem).2
    constructor
    · intro h
      unfold entryB storedCross at h ⊢
      rw [hposted _ rfl]
      exact h
    · intro h
      refine ⟨?_, ?_⟩
      · unfold nonDryB storedCross at h ⊢
        rw [hposted _ rfl]
        exact h
      · intro c hc hcontr
        have := hcalls c hc
        rw [this] at hcontr
        exact hid (CallTarget.event.inj hcontr.2).symm
  case pos =>
    subst hid
    simp only [publishPhase]
    set nevent := eventToNevent env post.id with hnev
    set prev := storedCross st post.id with hprev
    set condX := (cx && meetsX && decide (counts.x < DAILY_CAP_X) && !isNonDry prev.x)
      with hcondX
    set xr := xBranch env dryRun now counts nevent post.id condX with hxr
    set condLI := (cli && meetsLI && decide (xr.2.1.linkedin < DAILY_CAP_LINKEDIN) &&
      !isNonDry prev.linkedin) with hcondLI
    set lr := liBranch env dryRun now xr.2.1 nevent post.id condLI needsRewrite with hlr
    cases p with
    | x =>
      constructor
      · intro h
        unfold entryB at h ⊢
        rw [← hprev] at h
        split
        · simp only [storedCross, lookupA_setA_self, getCross, mergeCross]
          exact mergeEntry_isSome _ _ h
        · exact hprev ▸ h
      · intro h
        unfold nonDryB at h
        rw [← hprev] at h
        have hcx : condX = false := by
          have hx : isNonDry prev.x = true := h
          rw [hcondX, hx]
          simp
        have hxr2 : xr = (none, counts, []) := by
          rw [hxr, hcx]
          rfl
        constructor
        · unfold nonDryB
          split
          · simp only [storedCross, lookupA_setA_self, getCross, mergeCross, hxr2]
            exact mergeEntry_nonDry _ _ h
          · exact hprev ▸ h
        · intro c hc hcontr
          have hc2 : c ∈ xr.2.2 ++ lr.2.2 := by
            revert hc
            split <;> (intro hc; exact hc)
          rw [hxr2] at hc2
          simp only [List.nil_append] at hc2
          have := (liBranch_calls _ _ _ _ _ _ _ _ c hc2).1
          rw [this] at hcontr
          cases hcontr.1
    | linkedin =>
      constructor
      · intro h
        unfold entryB at h ⊢
        rw [← hprev] at h
        split
        · simp only [storedCross, lookupA_setA_self, getCross, mergeCross]
          exact mergeEntry_isSome _ _ h
        · exact hprev ▸ h
      · intro h
        unfold nonDryB at h
        rw [← hprev] at h
        have hcli : condLI = false := by
          have hx : isNonDry prev.linkedin = true := h
          rw [hcondLI, hx]
          simp
        have hlr2 : lr = (none, xr.2.1, []) := by
          rw [hlr, hcli]
          rfl
        constructor
        · unfold nonDryB
          split
          · simp only [storedCross, lookupA_setA_self, getCross, mergeCross, hlr2]
            exact mergeEntry_nonDry _ _ h
          · exact hprev ▸ h
        · intro c hc hcontr
          have hc2 : c ∈ xr.2.2 ++ lr.2.2 := by
            revert hc
            split <;> (intro hc; exact hc)
          rw [hlr2] at hc2
          simp only [List.append_nil] at hc2
          have := (xBranch_calls _ _ _ _ _ _ _ c hc2).1
          rw [this] at hcontr
          cases hcontr.1

/-- Shared helper: one candidate-loop iteration preserves existing
platform entries of every id, keeps real entries real, and never calls a
platform that already carries a real entry for that id. -/
theorem processPost_preserve (env : Env) (dryRun : Bool) (now : Int)
    (sc : CrosspostState × DailyCounts) (post : NostrEvent) (id : String) (p : Platform) :
    (entryB sc.1 id p = true → entryB (processPost env dryRun now sc post).1.1 id p = true) ∧
    (nonDryB sc.1 id p = true →
      nonDryB (processPost env dryRun now sc post).1.1 id p = true ∧
      ∀ c ∈ (processPost env dryRun now sc post).2,
        ¬(c.platform = p ∧ c.target = CallTarget.event id)) := by
  have htriv : ∀ r : (CrosspostState × DailyCounts) × List Call,
      r.1.1 = sc.1 → r.2 = [] →
      (entryB sc.1 id p = true → entryB r.1.1 id p = true) ∧
      (nonDryB sc.1 id p = true →
        nonDryB r.1.1 id p = true ∧
        ∀ c ∈ r.2, ¬(c.platform = p ∧ c.target = CallTarget.event id)) := by
    intro r hst hcalls
    rw [hst, hcalls]
    exact ⟨fun h => h, fun h => ⟨h, by simp⟩⟩
  have hskip : ∀ (reason : String) (r : (CrosspostState × DailyCounts) × List Call),
      r.1.1 = withSkip sc.1 post.id reason now → r.2 = [] →
      (entryB sc.1 id p = true → entryB r.1.1 id p = true) ∧
      (nonDryB sc.1 id p = true →
        nonDryB r.1.1 id p = true ∧
        ∀ c ∈ r.2, ¬(c.platform = p ∧ c.target = CallTarget.event id)) := by
    intro reason r hst hcalls
    rw [hst, hcalls]
    have he : entryB (withSkip sc.1 post.id reason now) id p = entryB sc.1 id p := rfl
    have hn : nonDryB (withSkip sc.1 post.id reason now) id p = nonDryB sc.1 id p := rfl
    rw [he, hn]
    exact ⟨fun h => h, fun h => ⟨h, by simp⟩⟩
  unfold processPost
  by_cases h1 : (lookupA sc.1.skipped post.id).isSome = true
  · rw [if_pos h1]
    exact htriv _ rfl rfl
  · rw [if_neg h1]
    by_cases h2 : postedBlocked sc.1 post.id = true
    · rw [if_pos h2]
      exact htriv _ rfl rfl
    · rw [if_neg h2]
      by_cases h3 : isReplyPost post = true
      · rw [if_pos h3]
        exact hskip "reply" _ rfl rfl
      · rw [if_neg h3]
        by_cases h4 : post.kind = 6
        · rw [if_pos h4]
          exact htriv _ rfl rfl
        · rw [if_neg h4]
          by_cases h5 : hasQuoteRef post.content = true
          · rw [if_pos h5]
            exact hskip _ _ rfl rfl
          · rw [if_neg h5]
            by_cases h6 : now - post.created_at < MIN_AGE_SECONDS
            · rw [if_pos h6]
              exact htriv _ rfl rfl
            · rw [if_neg h6]
              by_cases h7 : isDuplicateContent post.content sc.1.posted = true
              · rw [if_pos h7]
                exact hskip _ _ rfl rfl
              · rw [if_neg h7]
                rcases hcls : classifyContent post.content with r | ⟨cx, cli, nr⟩
                · exact hskip _ _ rfl rfl
                · dsimp only
                  by_cases hth : (!decide (THRESHOLD_X ≤ engScore (env.engagement post.id) +
                        checkTrending env post.content) &&
                      !decide (THRESHOLD_LINKEDIN ≤ engScore (env.engagement post.id) +
                        checkTrending env post.content)) = true
                  · rw [if_pos hth]
                    exact hskip _ _ rfl rfl
                  · rw [if_neg hth]
                    exact publishPhase_preserve env dryRun now sc.1 sc.2 post cx cli nr
                      (decide (THRESHOLD_X ≤ engScore (env.engagement post.id) +
                        checkTrending env post.content))
                      (decide (THRESHOLD_LINKEDIN ≤ engScore (env.engagement post.id) +
                        checkTrending env post.content))
                      (env.engagement post.id) (checkTrending env post.content)
                      (engScore (env.engagement post.id) + checkTrending env post.content)
                      id p

/-- Shared helper: `entryB` and `nonDryB` read only the `posted` map. -/
theorem entryB_congr (st st' : CrosspostState) (id : String) (p : Platform)
    (h : st'.posted = st.posted) :
    entryB st' id p = entryB st id p ∧ nonDryB st' id p = nonDryB st id p := by
  unfold entryB nonDryB storedCross
  rw [h]
  exact ⟨rfl, rfl⟩

/-- Shared helper: every call of a draft arm targets its draft file. -/
theorem draftArm_calls (env : Env) (dryRun : Bool) (p : Platform) (counts : DailyCounts)
    (text : Option (List Char)) (file : String) (cond : Bool) :
    ∀ c ∈ (draftArm env dryRun p counts text file cond).2.2,
      c.target = CallTarget.draft file := by
  unfold draftArm postNativeCall
  dsimp only
  repeat' split
  all_goals simp_all

/-- Shared helper: draft processing never touches the `posted` map and
all its calls target draft files. -/
theorem processDraft_preserve (env : Env) (dryRun : Bool) (nowMs : Int)
    (sc : CrosspostState × DailyCounts) (draft : Draft) :
    (processDraft env dryRun nowMs sc draft).1.1.posted = sc.1.posted ∧
    ∀ c ∈ (processDraft env dryRun nowMs sc draft).2,
      ∃ f, c.target = CallTarget.draft f := by
  unfold processDraft
  dsimp only
  set xr := draftArm env dryRun .x sc.2 (jsOrText draft.xText draft.content)
    draft.file (draft.platforms.contains "x" && decide (sc.2.x < DAILY_CAP_X)) with hxr
  set lr := draftArm env dryRun .linkedin xr.2.1
    (jsOrText draft.linkedinText draft.content) draft.file
    (draft.platforms.contains "linkedin" &&
      decide (xr.2.1.linkedin < DAILY_CAP_LINKEDIN)) with hlr
  constructor
  · repeat' split
    all_goals rfl
  · intro c hc
    have hc2 : c ∈ xr.2.2 ++ lr.2.2 := by
      revert hc
      repeat' split
      all_goals (intro hc; first | exact hc | cases hc)
    rcases List.mem_append.mp hc2 with hm | hm
    · exact ⟨draft.file, draftArm_calls _ _ _ _ _ _ _ c hm⟩
    · exact ⟨draft.file, draftArm_calls _ _ _ _ _ _ _ c hm⟩

/-- Shared helper: the drafts fold never touches the `posted` map and all
its calls target draft files. -/
theorem processDraftsAux_preserve (env : Env) (dryRun : Bool) (nowMs : Int) :
    ∀ (drafts : List Draft) (sc : CrosspostState × DailyCounts),
    (processDraftsAux env dryRun nowMs drafts sc).1.1.posted = sc.1.posted ∧
    ∀ c ∈ (processDraftsAux env dryRun nowMs drafts sc).2,
      ∃ f, c.target = CallTarget.draft f := by
  intro drafts
  induction drafts with
  | nil =>
    intro sc
    exact ⟨rfl, by simp [processDraftsAux]⟩
  | cons d ds ih =>
    intro sc
    have hstep := processDraft_preserve env dryRun nowMs sc d
    have hrest := ih (processDraft env dryRun nowMs sc d).1
    constructor
    · simp only [processDraftsAux]
      rw [hrest.1, hstep.1]
    · simp only [processDraftsAux]
      intro c hc
      rcases List.mem_append.mp hc with hm | hm
      · exact hstep.2 c hm
      · exact hrest.2 c hm

/-- Shared helper: the candidate fold preserves existing entries, keeps
real entries real, and never calls a platform already really posted for an
id. -/
theorem runPostsAux_preserve (env : Env) (dryRun : Bool) (now : Int) :
    ∀ (posts : List NostrEvent) (sc : CrosspostState × DailyCounts)
      (id : String) (p : Platform),
    (entryB sc.1 id p = true →
      entryB (runPostsAux env dryRun now posts sc).1.1 id p = true) ∧
    (nonDryB sc.1 id p = true →
      nonDryB (runPostsAux env dryRun now posts sc).1.1 id p = true ∧
      ∀ c ∈ (runPostsAux env dryRun now posts sc).2,
        ¬(c.platform = p ∧ c.target = CallTarget.event id)) := by
  intro posts
  induction posts with
  | nil =>
    intro sc id p
    exact ⟨fun h => h, fun h => ⟨h, by simp [runPostsAux]⟩⟩
  | cons q qs ih =>
    intro sc id p
    have hstep := processPost_preserve env dryRun now sc q id p
    have hrest := ih (processPost env dryRun now sc q).1 id p
    constructor
    · intro h
      simp only [runPostsAux]
      exact hrest.1 (hstep.1 h)
    · intro h
      have h1 := hstep.2 h
      have h2 := hrest.2 h1.1
      refine ⟨?_, ?_⟩
      · simp only [runPostsAux]
        exact h2.1
      · simp only [runPostsAux]
        intro c hc
        rcases List.mem_append.mp hc with hm | hm
        · exact h1.2 c hm
        · exact h2.2 c hm

/-- Shared helper: a whole run preserves existing entries, keeps real
entries real, and never publishes to a platform already really posted for
an id. -/
theorem runMain_preserve (env : Env) (dryRun : Bool) (now nowMs : Int) (today : String)
    (st0 : CrosspostState) (drafts : List Draft) (posts : List NostrEvent)
    (id : String) (p : Platform) :
    (entryB st0 id p = true →
      entryB (runMain env dryRun now nowMs today st0 drafts posts).1 id p = true) ∧
    (nonDryB st0 id p = true →
      nonDryB (runMain env dryRun now nowMs today st0 drafts posts).1 id p = true ∧
      ∀ c ∈ (runMain env dryRun now nowMs today st0 drafts posts).2,
        ¬(c.platform = p ∧ c.target = CallTarget.event id)) := by
  unfold runMain
  dsimp only
  set counts1 := initialCounts today st0 with hc1
  set dr := processDraftsAux env dryRun nowMs drafts (st0, counts1) with hdr
  set pr := runPostsAux env dryRun now (dedupPosts posts []) dr.1 with hpr
  have hdrp := processDraftsAux_preserve env dryRun nowMs drafts (st0, counts1)
  have hdre := entryB_congr st0 dr.1.1 id p hdrp.1
  have hrun := runPostsAux_preserve env dryRun now (dedupPosts posts []) dr.1 id p
  have hfin := entryB_congr pr.1.1
    { pr.1.1 with lastCheck := now, dailyCounts := pr.1.2 } id p rfl
  constructor
  · intro h
    rw [hfin.1]
    exact hrun.1 (hdre.1 ▸ h)
  · intro h
    have hd : nonDryB dr.1.1 id p = true := hdre.2 ▸ h
    have h2 := hrun.2 hd
    refine ⟨?_, ?_⟩
    · rw [hfin.2]
      exact h2.1
    · intro c hc
      rcases List.mem_append.mp hc with hm | hm
      · rcases hdrp.2 c hm with ⟨f, hf⟩
        intro hcontr
        rw [hf] at hcontr
        cases hcontr.2
      · exact h2.2 c hm

/-- C1: with dry-run disabled, a run of the decision engine never invokes
a platform publisher for a candidate whose Post Record already carries a
real (non-dry-run) entry for that platform; applied to the state saved by
the previous run, this is exactly the two-successive-runs no-double-publish
property. -/
theorem no_double_publish (env : Env) (now nowMs : Int) (today : String)
    (st0 : CrosspostState) (drafts : List Draft) (posts : List NostrEvent)
    (id : String) (p : Platform)
    (h : nonDryB st0 id p = true) :
    ∀ c ∈ (runMain env false now nowMs today st0 drafts posts).2,
      ¬(c.platform = p ∧ c.target = CallTarget.event id) :=
  ((runMain_preserve env false now nowMs today st0 drafts posts id p).2 h).2

/-- C4: across a run, a stored `crossPosted` entry is never dropped (the
merge keeps every existing platform entry), and a real (`dryRun = false`)
entry never becomes a dry-run one — real results are sticky. -/
theorem sticky_real_results (env : Env) (dryRun : Bool) (now nowMs : Int)
    (today : String) (st0 : CrosspostState) (drafts : List Draft)
    (posts : List NostrEvent) (id : String) (p : Platform) :
    (entryB st0 id p = true →
      entryB (runMain env dryRun now nowMs today st0 drafts posts).1 id p = true) ∧
    (nonDryB st0 id p = true →
      nonDryB (runMain env dryRun now nowMs today st0 drafts posts).1 id p = true) :=
  ⟨(runMain_preserve env dryRun now nowMs today st0 drafts posts id p).1,
    fun h => ((runMain_preserve env dryRun now nowMs today st0 drafts posts id p).2 h).1⟩

set_option maxRecDepth 8192 in
/-- Witness for C1: after a first real run publishes candidate `e1` on X,
an immediately following run on the same candidate makes no X publisher
call for it. -/
theorem no_double_publish_witness :
    nonDryB (runMain env0 false 10000 10000000 "2026-02-03" emptyState []
        [mkPost "e1"]).1 "e1" Platform.x = true ∧
      ∀ c ∈ (runMain env0 false 20000 20000000 "2026-02-03"
          (runMain env0 false 10000 10000000 "2026-02-03" emptyState []
            [mkPost "e1"]).1 [] [mkPost "e1"]).2,
        ¬(c.platform = Platform.x ∧ c.target = CallTarget.event "e1") :=
  ⟨by decide,
    no_double_publish env0 20000 20000000 "2026-02-03"
      (runMain env0 false 10000 10000000 "2026-02-03" emptyState [] [mkPost "e1"]).1
      [] [mkPost "e1"] "e1" Platform.x (by decide)⟩

set_option maxRecDepth 8192 in
/-- Witness for C4 at a state already really posted on X. -/
theorem sticky_real_results_witness :
    entryB stPosted "e1" Platform.x = true ∧
      nonDryB stPosted "e1" Platform.x = true ∧
      entryB (runMain env0 false 10000 10000000 "2026-02-03" stPosted []
        [mkPost "e1"]).1 "e1" Platform.x = true ∧
      nonDryB (runMain env0 false 10000 10000000 "2026-02-03" stPosted []
        [mkPost "e1"]).1 "e1" Platform.x = true :=
  ⟨by decide, by decide,
    (sticky_real_results env0 false 10000 10000000 "2026-02-03" stPosted []
      [mkPost "e1"] "e1" Platform.x).1 (by decide),
    (sticky_real_results env0 false 10000 10000000 "2026-02-03" stPosted []
      [mkPost "e1"] "e1" Platform.x).2 (by decide)⟩

/-! ## Prefix lemmas for the duplicate-content self-match (C10) -/

/-- Shared helper: prefixes are preserved by `cons`. -/
theorem isPre_cons (x : Char) (a b : List Char) (h : isPre a b) :
    isPre (x :: a) (x :: b) := by
  rcases h with ⟨t, ht⟩
  exact ⟨t, by rw [ht]; rfl⟩

/-- Shared helper: the empty list is a prefix of anything. -/
theorem isPre_nil (b : List Char) : isPre [] b := ⟨b, rfl⟩

/-- Shared helper: `dropWhile` of a `take` is a `take` of the
`dropWhile`. -/
theorem dropWhile_take (p : Char → Bool) :
    ∀ (l : List Char) (n : Nat),
      ∃ m, (l.take n).dropWhile p = (l.dropWhile p).take m := by
  intro l
  induction l with
  | nil =>
    intro n
    exact ⟨0, by simp⟩
  | cons c cs ih =>
    intro n
    cases n with
    | zero => exact ⟨0, by simp⟩
    | succ k =>
      by_cases hc : p c
      · rcases ih k with ⟨m, hm⟩
        refine ⟨m, ?_⟩
        simp [List.take_succ_cons, List.dropWhile_cons, hc, hm]
      · refine ⟨k + 1, ?_⟩
        simp [List.take_succ_cons, List.dropWhile_cons, hc]

/-- Shared helper: the collapse of a `take` is a prefix of the collapse,
for either run state. -/
theorem collapseAux_take_isPre :
    ∀ (l : List Char) (s : Bool) (n : Nat),
      isPre (collapseAux s (l.take n)) (collapseAux s l) := by
  intro l
  induction l with
  | nil =>
    intro s n
    simp only [List.take_nil]
    exact ⟨[], rfl⟩
  | cons c cs ih =>
    intro s n
    cases n with
    | zero =>
      simp only [List.take_zero, collapseAux]
      exact isPre_nil _
    | succ k =>
      simp only [List.take_cons, collapseAux]
      by_cases hc : isWs c
      · simp only [hc, if_true]
        by_cases hs : s
        · simp only [hs, if_true]
          exact ih true k
        · simp only [hs, if_false]
          exact isPre_cons ' ' _ _ (ih true k)
      · simp only [hc, if_false]
        exact isPre_cons c _ _ (ih false k)

/-- Shared helper: `dropWhile` preserves the prefix relation. -/
theorem dropWhile_isPre (p : Char → Bool) :
    ∀ (a b : List Char), isPre a b → isPre (a.dropWhile p) (b.dropWhile p) := by
  intro a
  induction a with
  | nil =>
    intro b _
    exact isPre_nil _
  | cons c cs ih =>
    intro b hab
    rcases hab with ⟨t, ht⟩
    subst ht
    by_cases hc : p c
    · simp only [List.cons_append, List.dropWhile_cons, hc, if_true]
      exact ih (cs ++ t) ⟨t, rfl⟩
    · simp only [List.cons_append, List.dropWhile_cons, hc, if_false]
      exact ⟨t, rfl⟩

/-- Shared helper: `dropTrail` preserves the prefix relation. -/
theorem dropTrail_isPre :
    ∀ (a b : List Char), isPre a b → isPre (dropTrail a) (dropTrail b) := by
  intro a
  induction a with
  | nil =>
    intro b _
    exact isPre_nil _
  | cons c cs ih =>
    intro b hab
    rcases hab with ⟨t, ht⟩
    subst ht
    have ihc := ih (cs ++ t) ⟨t, rfl⟩
    simp only [List.cons_append, dropTrail]
    cases hdx : dropTrail cs with
    | nil =>
      cases hdy : dropTrail (cs ++ t) with
      | nil =>
        by_cases hc : isWs c
        · simp [hc]
          exact isPre_nil _
        · simp [hc]
          exact ⟨[], rfl⟩
      | cons r rs =>
        by_cases hc : isWs c
        · simp [hc]
          exact isPre_nil _
        · simp [hc]
          exact ⟨r :: rs, rfl⟩
    | cons w ws =>
      rw [hdx] at ihc
      rcases ihc with ⟨u, hu⟩
      cases hdy : dropTrail (cs ++ t) with
      | nil =>
        rw [hdy] at hu
        cases hu
      | cons r rs =>
        rw [hdy] at hu
        refine ⟨u, ?_⟩
        rw [hu]
        rfl

/-- Shared helper: `trim` preserves the prefix relation. -/
theorem trimL_isPre (a b : List Char) (h : isPre a b) :
    isPre (trimL a) (trimL b) :=
  dropTrail_isPre _ _ (dropWhile_isPre isWs a b h)

/-- Shared helper: `take` preserves the prefix relation. -/
theorem take_isPre (n : Nat) (a b : List Char) (h : isPre a b) :
    isPre (a.take n) (b.take n) := by
  rcases h with ⟨t, ht⟩
  subst ht
  exact ⟨(t.take (n - a.length)), by rw [List.take_append_eq_append_take]⟩

/-- Shared helper: the normalisation of the stored 200-character
truncation is a prefix of the normalisation of the full body. -/
theorem normalize_take_isPre (c : List Char) :
    isPre (normalizeContent (c.take 200)) (normalizeContent c) := by
  unfold normalizeContent
  apply take_isPre
  apply trimL_isPre
  unfold collapseWs
  have hl : lowerL (c.take 200) = (lowerL c).take 200 := by
    unfold lowerL
    exact List.map_take _ _ _
  rw [hl]
  exact collapseAux_take_isPre (lowerL c) false 200

/-- Shared helper: a prefix passes `startsWithL`. -/
theorem startsWithL_of_isPre :
    ∀ (a b : List Char), isPre a b → startsWithL b a = true := by
  intro a
  induction a with
  | nil =>
    intro b _
    cases b <;> rfl
  | cons c cs ih =>
    intro b hab
    rcases hab with ⟨t, ht⟩
    subst ht
    simp only [List.cons_append, startsWithL, Bool.and_eq_true]
    exact ⟨by simp, ih (cs ++ t) ⟨t, rfl⟩⟩

/-- Shared helper: a prefix is found by the substring scan. -/
theorem containsSub_of_isPre (a b : List Char) (h : isPre a b) :
    containsSub b a = true := by
  have hs := startsWithL_of_isPre a b h
  unfold containsSub
  rw [hs]
  rfl

/-- Shared helper: a found key's pair is a member of the map. -/
theorem lookupA_mem {α : Type} :
    ∀ (l : List (String × α)) (k : String) (v : α),
      lookupA l k = some v → (k, v) ∈ l := by
  intro l
  induction l with
  | nil =>
    intro k v h
    cases h
  | cons e es ih =>
    intro k v h
    unfold lookupA at h
    by_cases he : e.1 = k
    · rw [if_pos he] at h
      injection h with hv
      have hev : e = (k, v) := by
        cases e
        simp_all
      rw [hev]
      exact List.mem_cons_self _ _
    · rw [if_neg he] at h
      exact List.mem_cons_of_mem _ (ih k v h)

/-- Shared helper: a nonempty list has a nonempty 200-character
truncation. -/
theorem take200_ne_nil (c : List Char) (h : c ≠ []) : c.take 200 ≠ [] := by
  cases c with
  | nil => exact absurd rfl h
  | cons x xs =>
    simp [List.take_cons]

/-- Shared helper: a candidate whose own truncated body is stored in some
Post Record always trips the duplicate-content check. -/
theorem isDuplicateContent_self (c : List Char) (posted : List (String × PostRecord))
    (id : String) (rec : PostRecord)
    (h : lookupA posted id = some rec)
    (hcontent : rec.content = c.take 200) (hne : c ≠ []) :
    isDuplicateContent c posted = true := by
  have hmem : (id, rec) ∈ posted := lookupA_mem posted id rec h
  unfold isDuplicateContent
  rw [List.any_eq_true]
  refine ⟨(id, rec), hmem, ?_⟩
  have hne2 : rec.content ≠ [] := by
    rw [hcontent]
    exact take200_ne_nil c hne
  have hp : isPre (normalizeContent rec.content) (normalizeContent c) := by
    rw [hcontent]
    exact normalize_take_isPre c
  have hsub := containsSub_of_isPre _ _ hp
  simp only [Bool.and_eq_true, Bool.or_eq_true, Bool.not_eq_true']
  constructor
  · simp [hne2]
  · exact Or.inl (Or.inr hsub)

/-- C10: a candidate whose Post Record already stores the truncated copy
of its own nonempty body (a partial post to one platform) is matched by
the duplicate-content check against its own stored record on any later
run: the run writes a terminal Skip Record with the duplicate reason and
makes no publisher call for the remaining platform. -/
theorem self_duplicate_skip (env : Env) (dryRun : Bool) (now : Int)
    (sc : CrosspostState × DailyCounts) (post : NostrEvent) (rec : PostRecord)
    (h0 : post.content ≠ [])
    (h1 : lookupA sc.1.skipped post.id = none)
    (h2 : lookupA sc.1.posted post.id = some rec)
    (h2b : rec.deleted = false)
    (h2c : (isNonDry rec.crossPosted.x && isNonDry rec.crossPosted.linkedin) = false)
    (h3 : isReplyPost post = false)
    (h4 : post.kind ≠ 6)
    (h5 : hasQuoteRef post.content = false)
    (h6 : ¬(now - post.created_at < MIN_AGE_SECONDS))
    (hc : rec.content = post.content.take 200) :
    processPost env dryRun now sc post =
      ((withSkip sc.1 post.id "duplicate of previously posted content" now, sc.2), []) := by
  have hdup := isDuplicateContent_self post.content sc.1.posted post.id rec h2 hc h0
  have hpb : postedBlocked sc.1 post.id = false := by
    unfold postedBlocked
    rw [h2]
    simp [h2b, h2c]
  simp [processPost, h1, hpb, h3, h4, h5, h6, hdup]

/-- Witness for C10 at a concrete partially posted candidate. -/
theorem self_duplicate_skip_witness :
    recPartial.content = (mkPost "e1").content.take 200 ∧
      processPost env0 false 10000 (stPartial, stPartial.dailyCounts) (mkPost "e1") =
        ((withSkip stPartial "e1" "duplicate of previously posted content" 10000,
          stPartial.dailyCounts), []) :=
  ⟨by decide,
    self_duplicate_skip env0 false 10000 (stPartial, stPartial.dailyCounts)
      (mkPost "e1") recPartial (by decide) (by decide) (by decide) (by decide)
      (by decide) (by decide) (by decide) (by decide) (by decide) (by decide)⟩

/-! ## Counter lemmas for cap enforcement (C2) -/

/-- Shared helper: successful-call counts add over appends. -/
theorem sucCalls_append (p : Platform) (a b : List Call) :
    sucCalls p (a ++ b) = sucCalls p a + sucCalls p b := by
  unfold sucCalls
  exact List.countP_append _ _ _

/-- Shared helper: calls of one platform count zero toward another. -/
theorem sucCalls_zero_of_platform (p q : Platform) (hpq : q ≠ p) (calls : List Call)
    (h : ∀ c ∈ calls, c.platform = q) : sucCalls p calls = 0 := by
  unfold sucCalls
  rw [List.countP_eq_zero]
  intro c hc
  simp [h c hc, hpq]

/-- Shared helper: a processing stretch that changes nothing satisfies the
counter relation. -/
theorem CountsFold_refl (c : DailyCounts) : CountsFold c c [] := by
  unfold CountsFold sucCalls
  simp

/-- Shared helper: the counter relation composes. -/
theorem CountsFold_trans (c c1 c2 : DailyCounts) (calls1 calls2 : List Call)
    (h1 : CountsFold c c1 calls1) (h2 : CountsFold c1 c2 calls2) :
    CountsFold c c2 (calls1 ++ calls2) := by
  unfold CountsFold at h1 h2 ⊢
  rw [sucCalls_append, sucCalls_append]
  push_cast
  refine ⟨?_, ?_, ?_, ?_, ?_, ?_⟩
  · rw [h2.1, h1.1]
  · rw [h2.2.1, h1.2.1]
  · omega
  · intro h
    exact h2.2.2.2.1 (h1.2.2.2.1 h)
  · omega
  · intro h
    exact h2.2.2.2.2.2 (h1.2.2.2.2.2 h)

/-- Shared helper: counter and successful-call accounting of the X arm. -/
theorem xBranch_counts (env : Env) (dryRun : Bool) (now : Int) (counts : DailyCounts)
    (nevent id : String) (cond : Bool)
    (hcond : cond = true → counts.x < DAILY_CAP_X) :
    ((xBranch env dryRun now counts nevent id cond).2.1.x = counts.x ∧
      sucCalls Platform.x (xBranch env dryRun now counts nevent id cond).2.2 = 0) ∨
    (counts.x < DAILY_CAP_X ∧
      (xBranch env dryRun now counts nevent id cond).2.1.x = counts.x + 1 ∧
      sucCalls Platform.x (xBranch env dryRun now counts nevent id cond).2.2 = 1) := by
  unfold xBranch crossPostCall
  by_cases hcd : cond = true
  · rw [if_pos hcd]
    by_cases hdr : dryRun = true
    · rw [if_pos hdr]
      left
      refine ⟨?_, rfl⟩
      simp [hdr]
    · rw [if_neg hdr]
      dsimp only
      by_cases hok : env.publish Platform.x nevent = true
      · rw [if_pos hok, if_neg hdr]
        right
        refine ⟨hcond hcd, rfl, ?_⟩
        simp [sucCalls, hok]
      · rw [if_neg hok]
        left
        refine ⟨rfl, ?_⟩
        have hok' : env.publish Platform.x nevent = false := by
          revert hok
          cases env.publish Platform.x nevent <;> simp
        simp [sucCalls, hok']
  · rw [if_neg hcd]
    left
    exact ⟨rfl, rfl⟩

/-- Shared helper: counter and successful-call accounting of the LinkedIn
arm (a flagged rewrite records no call and no increment). -/
theorem liBranch_counts (env : Env) (dryRun : Bool) (now : Int) (counts : DailyCounts)
    (nevent id : String) (cond needsRewrite : Bool)
    (hcond : cond = true → counts.linkedin < DAILY_CAP_LINKEDIN) :
    ((liBranch env dryRun now counts nevent id cond needsRewrite).2.1.linkedin =
        counts.linkedin ∧
      sucCalls Platform.linkedin
        (liBranch env dryRun now counts nevent id cond needsRewrite).2.2 = 0) ∨
    (counts.linkedin < DAILY_CAP_LINKEDIN ∧
      (liBranch env dryRun now counts nevent id cond needsRewrite).2.1.linkedin =
        counts.linkedin + 1 ∧
      sucCalls Platform.linkedin
        (liBranch env dryRun now counts nevent id cond needsRewrite).2.2 = 1) := by
  unfold liBranch crossPostCall
  by_cases hcd : cond = true
  · rw [if_pos hcd]
    by_cases hnr : needsRewrite = true
    · rw [if_pos hnr]
      left
      exact ⟨rfl, rfl⟩
    · rw [if_neg hnr]
      by_cases hdr : dryRun = true
      · rw [if_pos hdr]
        left
        refine ⟨?_, rfl⟩
        simp [hdr]
      · rw [if_neg hdr]
        dsimp only
        by_cases hok : env.publish Platform.linkedin nevent = true
        · rw [if_pos hok, if_neg hdr]
          right
          refine ⟨hcond hcd, rfl, ?_⟩
          simp [sucCalls, hok]
        · rw [if_neg hok]
          left
          refine ⟨rfl, ?_⟩
          have hok' : env.publish Platform.linkedin nevent = false := by
            revert hok
            cases env.publish Platform.linkedin nevent <;> simp
          simp [sucCalls, hok']
  · rw [if_neg hcd]
    left
    exact ⟨rfl, rfl⟩

/-- Shared helper: the LinkedIn arm does not touch the X counter, the
date, or the dry-run marker. -/
theorem liBranch_counts_frame (env : Env) (dryRun : Bool) (now : Int)
    (counts : DailyCounts) (nevent id : String) (cond needsRewrite : Bool) :
    (liBranch env dryRun now counts nevent id cond needsRewrite).2.1.x = counts.x ∧
      (liBranch env dryRun now counts nevent id cond needsRewrite).2.1.date =
        counts.date ∧
      (liBranch env dryRun now counts nevent id cond needsRewrite).2.1.includesDryRun =
        counts.includesDryRun := by
  unfold liBranch crossPostCall
  dsimp only
  repeat' split
  all_goals simp_all

/-- Shared helper: every call of a draft arm goes to that arm's
platform. -/
theorem draftArm_platform (env : Env) (dryRun : Bool) (p : Platform)
    (counts : DailyCounts) (text : Option (List Char)) (file : String) (cond : Bool) :
    ∀ c ∈ (draftArm env dryRun p counts text file cond).2.2, c.platform = p := by
  unfold draftArm postNativeCall
  dsimp only
  repeat' split
  all_goals simp_all

/-- Shared helper: counter and successful-call accounting of the X draft
arm. -/
theorem draftArm_x_counts (env : Env) (dryRun : Bool) (counts : DailyCounts)
    (text : Option (List Char)) (file : String) (cond : Bool)
    (hcond : cond = true → counts.x < DAILY_CAP_X) :
    ((draftArm env dryRun Platform.x counts text file cond).2.1.x = counts.x ∧
      sucCalls Platform.x (draftArm env dryRun Platform.x counts text file cond).2.2 = 0) ∨
    (counts.x < DAILY_CAP_X ∧
      (draftArm env dryRun Platform.x counts text file cond).2.1.x = counts.x + 1 ∧
      sucCalls Platform.x (draftArm env dryRun Platform.x counts text file cond).2.2 = 1) := by
  unfold draftArm postNativeCall incCount
  by_cases hcd : cond = true
  · rw [if_pos hcd]
    cases text with
    | none =>
      left
      exact ⟨rfl, rfl⟩
    | some t =>
      dsimp only
      by_cases hdr : dryRun = true
      · rw [if_pos hdr]
        left
        refine ⟨?_, rfl⟩
        simp [hdr]
      · rw [if_neg hdr]
        dsimp only
        by_cases hok : env.publishNative Platform.x t = true
        · rw [if_pos hok, if_neg hdr]
          right
          refine ⟨hcond hcd, rfl, ?_⟩
          simp [sucCalls, hok]
        · rw [if_neg hok]
          left
          refine ⟨rfl, ?_⟩
          have hok' : env.publishNative Platform.x t = false := by
            revert hok
            cases env.publishNative Platform.x t <;> simp
          simp [sucCalls, hok']
  · rw [if_neg hcd]
    left
    exact ⟨rfl, rfl⟩

/-- Shared helper: counter and successful-call accounting of the LinkedIn
draft arm. -/
theorem draftArm_li_counts (env : Env) (dryRun : Bool) (counts : DailyCounts)
    (text : Option (List Char)) (file : String) (cond : Bool)
    (hcond : cond = true → counts.linkedin < DAILY_CAP_LINKEDIN) :
    ((draftArm env dryRun Platform.linkedin counts text file cond).2.1.linkedin =
        counts.linkedin ∧
      sucCalls Platform.linkedin
        (draftArm env dryRun Platform.linkedin counts text file cond).2.2 = 0) ∨
    (counts.linkedin < DAILY_CAP_LINKEDIN ∧
      (draftArm env dryRun Platform.linkedin counts text file cond).2.1.linkedin =
        counts.linkedin + 1 ∧
      sucCalls Platform.linkedin
        (draftArm env dryRun Platform.linkedin counts text file cond).2.2 = 1) := by
  unfold draftArm postNativeCall incCount
  by_cases hcd : cond = true
  · rw [if_pos hcd]
    cases text with
    | none =>
      left
      exact ⟨rfl, rfl⟩
    | some t =>
      dsimp only
      by_cases hdr : dryRun = true
      · rw [if_pos hdr]
        left
        refine ⟨?_, rfl⟩
        simp [hdr]
      · rw [if_neg hdr]
        dsimp only
        by_cases hok : env.publishNative Platform.linkedin t = true
        · rw [if_pos hok, if_neg hdr]
          right
          refine ⟨hcond hcd, rfl, ?_⟩
          simp [sucCalls, hok]
        · rw [if_neg hok]
          left
          refine ⟨rfl, ?_⟩
          have hok' : env.publishNative Platform.linkedin t = false := by
            revert hok
            cases env.publishNative Platform.linkedin t <;> simp
          simp [sucCalls, hok']
  · rw [if_neg hcd]
    left
    exact ⟨rfl, rfl⟩

/-- Shared helper: the X draft arm does not touch the LinkedIn counter,
the date, or the dry-run marker. -/
theorem draftArm_x_frame (env : Env) (dryRun : Bool) (counts : DailyCounts)
    (text : Option (List Char)) (file : String) (cond : Bool) :
    (draftArm env dryRun Platform.x counts text file cond).2.1.linkedin =
        counts.linkedin ∧
      (draftArm env dryRun Platform.x counts text file cond).2.1.date = counts.date ∧
      (draftArm env dryRun Platform.x counts text file cond).2.1.includesDryRun =
        counts.includesDryRun := by
  unfold draftArm postNativeCall incCount
  dsimp only
  repeat' split
  all_goals simp_all

/-- Shared helper: the LinkedIn draft arm does not touch the X counter,
the date, or the dry-run marker. -/
theorem draftArm_li_frame (env : Env) (dryRun : Bool) (counts : DailyCounts)
    (text : Option (List Char)) (file : String) (cond : Bool) :
    (draftArm env dryRun Platform.linkedin counts text file cond).2.1.x = counts.x ∧
      (draftArm env dryRun Platform.linkedin counts text file cond).2.1.date =
        counts.date ∧
      (draftArm env dryRun Platform.linkedin counts text file cond).2.1.includesDryRun =
        counts.includesDryRun := by
  unfold draftArm postNativeCall incCount
  dsimp only
  repeat' split
  all_goals simp_all

/-- Shared helper: the publish phase relates its final counters to its
emitted calls: dates and the dry-run marker are untouched, counters grow
exactly by the successful real publishes, and caps are preserved. -/
theorem publishPhase_counts (env : Env) (dryRun : Bool) (now : Int)
    (st : CrosspostState) (counts : DailyCounts) (post : NostrEvent)
    (cx cli needsRewrite meetsX meetsLI : Bool) (engagement : Engagement)
    (trendingBonus totalScore : Nat) :
    CountsFold counts
      (publishPhase env dryRun now st counts post cx cli needsRewrite meetsX meetsLI
        engagement trendingBonus totalScore).1.2
      (publishPhase env dryRun now st counts post cx cli needsRewrite meetsX meetsLI
        engagement trendingBonus totalScore).2 := by
  simp only [publishPhase]
  set nevent := eventToNevent env post.id with hnev
  set prev := storedCross st post.id with hprev
  set condX := (cx && meetsX && decide (counts.x < DAILY_CAP_X) && !isNonDry prev.x)
    with hcondX
  set xr := xBranch env dryRun now counts nevent post.id condX with hxr
  set condLI := (cli && meetsLI && decide (xr.2.1.linkedin < DAILY_CAP_LINKEDIN) &&
    !isNonDry prev.linkedin) with hcondLI
  set lr := liBranch env dryRun now xr.2.1 nevent post.id condLI needsRewrite with hlr
  have hcx : condX = true → counts.x < DAILY_CAP_X := by
    intro h
    rw [hcondX] at h
    simp only [Bool.and_eq_true, decide_eq_true_eq] at h
    exact h.1.2
  have hcl : condLI = true → xr.2.1.linkedin < DAILY_CAP_LINKEDIN := by
    intro h
    rw [hcondLI] at h
    simp only [Bool.and_eq_true, decide_eq_true_eq] at h
    exact h.1.2
  have hX := xBranch_counts env dryRun now counts nevent post.id condX hcx
  have hXf := xBranch_counts_frame env dryRun now counts nevent post.id condX
  have hL := liBranch_counts env dryRun now xr.2.1 nevent post.id condLI needsRewrite hcl
  have hLf := liBranch_counts_frame env dryRun now xr.2.1 nevent post.id condLI needsRewrite
  rw [← hxr] at hX hXf
  rw [← hlr] at hL hLf
  have hsx0 : sucCalls Platform.x lr.2.2 = 0 :=
    sucCalls_zero_of_platform Platform.x Platform.linkedin
      (fun h => Platform.noConfusion h) lr.2.2
      (fun c hc =>
        (liBranch_calls env dryRun now xr.2.1 nevent post.id condLI needsRewrite c hc).1)
  have hsl0 : sucCalls Platform.linkedin xr.2.2 = 0 :=
    sucCalls_zero_of_platform Platform.linkedin Platform.x
      (fun h => Platform.noConfusion h) xr.2.2
      (fun c hc => (xBranch_calls env dryRun now counts nevent post.id condX c hc).1)
  have hres : CountsFold counts lr.2.1 (xr.2.2 ++ lr.2.2) := by
    unfold CountsFold
    rw [sucCalls_append, sucCalls_append, hsx0, hsl0]
    refine ⟨hLf.2.1.trans hXf.2.1, hLf.2.2.trans hXf.2.2, ?_, ?_, ?_, ?_⟩
    · rw [hLf.1]
      rcases hX with ⟨he, hs⟩ | ⟨hlt, he, hs⟩ <;> rw [he, hs] <;> simp
    · intro hc
      rw [hLf.1]
      rcases hX with ⟨he, hs⟩ | ⟨hlt, he, hs⟩ <;> rw [he] <;> omega
    · rcases hL with ⟨he, hs⟩ | ⟨hlt, he, hs⟩ <;> rw [he, hs, hXf.1] <;> simp
    · intro hc
      rcases hL with ⟨he, hs⟩ | ⟨hlt, he, hs⟩
      · rw [he, hXf.1]
        exact hc
      · rw [he]
        omega
  split <;> exact hres

/-- Shared helper: one candidate-loop iteration relates its counters to
its emitted calls. -/
theorem processPost_counts (env : Env) (dryRun : Bool) (now : Int)
    (sc : CrosspostState × DailyCounts) (post : NostrEvent) :
    CountsFold sc.2 (processPost env dryRun now sc post).1.2
      (processPost env dryRun now sc post).2 := by
  have hcf : ∀ r : (CrosspostState × DailyCounts) × List Call,
      r.1.2 = sc.2 → r.2 = [] → CountsFold sc.2 r.1.2 r.2 := by
    intro r h1 h2
    rw [h1, h2]
    exact CountsFold_refl sc.2
  unfold processPost
  by_cases h1 : (lookupA sc.1.skipped post.id).isSome = true
  · rw [if_pos h1]
    exact hcf _ rfl rfl
  · rw [if_neg h1]
    by_cases h2 : postedBlocked sc.1 post.id = true
    · rw [if_pos h2]
      exact hcf _ rfl rfl
    · rw [if_neg h2]
      by_cases h3 : isReplyPost post = true
      · rw [if_pos h3]
        exact hcf _ rfl rfl
      · rw [if_neg h3]
        by_cases h4 : post.kind = 6
        · rw [if_pos h4]
          exact hcf _ rfl rfl
        · rw [if_neg h4]
          by_cases h5 : hasQuoteRef post.content = true
          · rw [if_pos h5]
            exact hcf _ rfl rfl
          · rw [if_neg h5]
            by_cases h6 : now - post.created_at < MIN_AGE_SECONDS
            · rw [if_pos h6]
              exact hcf _ rfl rfl
            · rw [if_neg h6]
              by_cases h7 : isDuplicateContent post.content sc.1.posted = true
              · rw [if_pos h7]
                exact hcf _ rfl rfl
              · rw [if_neg h7]
                rcases hcls : classifyContent post.content with r | ⟨cx, cli, nr⟩
                · exact hcf _ rfl rfl
                · dsimp only
                  by_cases hth : (!decide (THRESHOLD_X ≤ engScore (env.engagement post.id) +
                        checkTrending env post.content) &&
                      !decide (THRESHOLD_LINKEDIN ≤ engScore (env.engagement post.id) +
                        checkTrending env post.content)) = true
                  · rw [if_pos hth]
                    exact hcf _ rfl rfl
                  · rw [if_neg hth]
                    exact publishPhase_counts env dryRun now sc.1 sc.2 post cx cli nr
                      (decide (THRESHOLD_X ≤ engScore (env.engagement post.id) +
                        checkTrending env post.content))
                      (decide (THRESHOLD_LINKEDIN ≤ engScore (env.engagement post.id) +
                        checkTrending env post.content))
                      (env.engagement post.id) (checkTrending env post.content)
                      (engScore (env.engagement post.id) + checkTrending env post.content)

/-- Shared helper: the candidate fold relates its counters to its emitted
calls. -/
theorem runPostsAux_counts (env : Env) (dryRun : Bool) (now : Int) :
    ∀ (posts : List NostrEvent) (sc : CrosspostState × DailyCounts),
    CountsFold sc.2 (runPostsAux env dryRun now posts sc).1.2
      (runPostsAux env dryRun now posts sc).2 := by
  intro posts
  induction posts with
  | nil =>
    intro sc
    simp only [runPostsAux]
    exact CountsFold_refl sc.2
  | cons q qs ih =>
    intro sc
    have hstep := processPost_counts env dryRun now sc q
    have hrest := ih (processPost env dryRun now sc q).1
    simp only [runPostsAux]
    exact CountsFold_trans _ _ _ _ _ hstep hrest

/-- Shared helper: one draft iteration relates its counters to its
emitted calls. -/
theorem processDraft_counts (env : Env) (dryRun : Bool) (nowMs : Int)
    (sc : CrosspostState × DailyCounts) (draft : Draft) :
    CountsFold sc.2 (processDraft env dryRun nowMs sc draft).1.2
      (processDraft env dryRun nowMs sc draft).2 := by
  unfold processDraft
  dsimp only
  set xr := draftArm env dryRun .x sc.2 (jsOrText draft.xText draft.content)
    draft.file (draft.platforms.contains "x" && decide (sc.2.x < DAILY_CAP_X)) with hxr
  set lr := draftArm env dryRun .linkedin xr.2.1
    (jsOrText draft.linkedinText draft.content) draft.file
    (draft.platforms.contains "linkedin" &&
      decide (xr.2.1.linkedin < DAILY_CAP_LINKEDIN)) with hlr
  have hcx : (draft.platforms.contains "x" && decide (sc.2.x < DAILY_CAP_X)) = true →
      sc.2.x < DAILY_CAP_X := by
    intro h
    simp only [Bool.and_eq_true, decide_eq_true_eq] at h
    exact h.2
  have hcl : (draft.platforms.contains "linkedin" &&
      decide (xr.2.1.linkedin < DAILY_CAP_LINKEDIN)) = true →
      xr.2.1.linkedin < DAILY_CAP_LINKEDIN := by
    intro h
    simp only [Bool.and_eq_true, decide_eq_true_eq] at h
    exact h.2
  have hX := draftArm_x_counts env dryRun sc.2 (jsOrText draft.xText draft.content)
    draft.file _ hcx
  have hXf := draftArm_x_frame env dryRun sc.2 (jsOrText draft.xText draft.content)
    draft.file (draft.platforms.contains "x" && decide (sc.2.x < DAILY_CAP_X))
  have hL := draftArm_li_counts env dryRun xr.2.1
    (jsOrText draft.linkedinText draft.content) draft.file _ hcl
  have hLf := draftArm_li_frame env dryRun xr.2.1
    (jsOrText draft.linkedinText draft.content) draft.file
    (draft.platforms.contains "linkedin" &&
      decide (xr.2.1.linkedin < DAILY_CAP_LINKEDIN))
  rw [← hxr] at hX hXf
  rw [← hlr] at hL hLf
  have hsx0 : sucCalls Platform.x lr.2.2 = 0 :=
    sucCalls_zero_of_platform Platform.x Platform.linkedin
      (fun h => Platform.noConfusion h) lr.2.2
      (fun c hc => draftArm_platform env dryRun Platform.linkedin xr.2.1
        (jsOrText draft.linkedinText draft.content) draft.file _ c hc)
  have hsl0 : sucCalls Platform.linkedin xr.2.2 = 0 :=
    sucCalls_zero_of_platform Platform.linkedin Platform.x
      (fun h => Platform.noConfusion h) xr.2.2
      (fun c hc => draftArm_platform env dryRun Platform.x sc.2
        (jsOrText draft.xText draft.content) draft.file _ c hc)
  have hres : CountsFold sc.2 lr.2.1 (xr.2.2 ++ lr.2.2) := by
    unfold CountsFold
    rw [sucCalls_append, sucCalls_append, hsx0, hsl0]
    refine ⟨hLf.2.1.trans hXf.2.1, hLf.2.2.trans hXf.2.2, ?_, ?_, ?_, ?_⟩
    · rw [hLf.1]
      rcases hX with ⟨he, hs⟩ | ⟨hlt, he, hs⟩ <;> rw [he, hs] <;> simp
    · intro hc
      rw [hLf.1]
      rcases hX with ⟨he, hs⟩ | ⟨hlt, he, hs⟩ <;> rw [he] <;> omega
    · rcases hL with ⟨he, hs⟩ | ⟨hlt, he, hs⟩ <;> rw [he, hs, hXf.1] <;> simp
    · intro hc
      rcases hL with ⟨he, hs⟩ | ⟨hlt, he, hs⟩
      · rw [he, hXf.1]
        exact hc
      · rw [he]
        omega
  repeat' split
  all_goals first
    | exact CountsFold_refl sc.2
    | exact hres

/-- Shared helper: the drafts fold relates its counters to its emitted
calls. -/
theorem processDraftsAux_counts (env : Env) (dryRun : Bool) (nowMs : Int) :
    ∀ (drafts : List Draft) (sc : CrosspostState × DailyCounts),
    CountsFold sc.2 (processDraftsAux env dryRun nowMs drafts sc).1.2
      (processDraftsAux env dryRun nowMs drafts sc).2 := by
  intro drafts
  induction drafts with
  | nil =>
    intro sc
    simp only [processDraftsAux]
    exact CountsFold_refl sc.2
  | cons d ds ih =>
    intro sc
    have hstep := processDraft_counts env dryRun nowMs sc d
    have hrest := ih (processDraft env dryRun nowMs sc d).1
    simp only [processDraftsAux]
    exact CountsFold_trans _ _ _ _ _ hstep hrest

/-- Shared helper: a whole run relates the saved counters to all its
emitted calls, starting from the run's initial counters. -/
theorem runMain_counts (env : Env) (dryRun : Bool) (now nowMs : Int) (today : String)
    (st0 : CrosspostState) (drafts : List Draft) (posts : List NostrEvent) :
    CountsFold (initialCounts today st0)
      (runMain env dryRun now nowMs today st0 drafts posts).1.dailyCounts
      (runMain env dryRun now nowMs today st0 drafts posts).2 := by
  unfold runMain
  dsimp only
  set counts1 := initialCounts today st0 with hc1
  set dr := processDraftsAux env dryRun nowMs drafts (st0, counts1) with hdr
  set pr := runPostsAux env dryRun now (dedupPosts posts []) dr.1 with hpr
  have h1 : CountsFold counts1 dr.1.2 dr.2 := by
    rw [hdr]
    exact processDraftsAux_counts env dryRun nowMs drafts (st0, counts1)
  have h2 : CountsFold dr.1.2 pr.1.2 pr.2 := by
    rw [hpr]
    exact runPostsAux_counts env dryRun now (dedupPosts posts []) dr.1
  exact CountsFold_trans counts1 dr.1.2 pr.1.2 dr.2 pr.2 h1 h2

/-- Shared helper: a stale stored date makes a run start from fresh zero
counters dated today. -/
theorem initialCounts_fresh (today : String) (st : CrosspostState)
    (h : st.dailyCounts.date ≠ today) :
    initialCounts today st =
      { date := today, x := 0, linkedin := 0, includesDryRun := false } := by
  simp [initialCounts, getDailyCounts, h]

/-- Shared helper: a state already dated today with a clear dry-run marker
starts a run from its stored counters. -/
theorem initialCounts_today (today : String) (st : CrosspostState)
    (hd : st.dailyCounts.date = today) (hf : st.dailyCounts.includesDryRun = false) :
    initialCounts today st = st.dailyCounts := by
  simp [initialCounts, getDailyCounts, hd, hf]

/-- Shared helper: a run starting from counters dated today within their
caps saves a state satisfying the day invariant, with each counter grown
exactly by that run's successful real publishes. -/
theorem runMain_dayInv (env : Env) (dryRun : Bool) (now nowMs : Int) (today : String)
    (st0 : CrosspostState) (drafts : List Draft) (posts : List NostrEvent)
    (hd : (initialCounts today st0).date = today)
    (hf : (initialCounts today st0).includesDryRun = false)
    (hx0 : 0 ≤ (initialCounts today st0).x)
    (hx1 : (initialCounts today st0).x ≤ DAILY_CAP_X)
    (hl0 : 0 ≤ (initialCounts today st0).linkedin)
    (hl1 : (initialCounts today st0).linkedin ≤ DAILY_CAP_LINKEDIN) :
    DayInv today (runMain env dryRun now nowMs today st0 drafts posts).1 ∧
    (runMain env dryRun now nowMs today st0 drafts posts).1.dailyCounts.x =
      (initialCounts today st0).x +
        (sucCalls Platform.x (runMain env dryRun now nowMs today st0 drafts posts).2 : Int) ∧
    (runMain env dryRun now nowMs today st0 drafts posts).1.dailyCounts.linkedin =
      (initialCounts today st0).linkedin +
        (sucCalls Platform.linkedin
          (runMain env dryRun now nowMs today st0 drafts posts).2 : Int) := by
  have h := runMain_counts env dryRun now nowMs today st0 drafts posts
  unfold CountsFold at h
  obtain ⟨h1, h2, h3, h4, h5, h6⟩ := h
  unfold DayInv
  refine ⟨⟨h1.trans hd, h2.trans hf, ?_, h4 hx1, ?_, h6 hl1⟩, h3, h5⟩
  · rw [h3]
    omega
  · rw [h5]
    omega

/-- Shared helper: across the runs of one day starting from a state
satisfying the day invariant, no reset happens, every saved state keeps
the invariant, and the counters grow exactly by the day's successful real
publishes. -/
theorem daySim_inv (env : Env) (today : String) :
    ∀ (rs : List RunInput) (st : CrosspostState), DayInv today st →
    (DayInv today (daySim env today rs st).1 ∧
      countResets env today rs st = 0 ∧
      (∀ s ∈ statesAfter env today rs st, DayInv today s)) ∧
    (daySim env today rs st).1.dailyCounts.x =
      st.dailyCounts.x + (sucCalls Platform.x (daySim env today rs st).2 : Int) ∧
    (daySim env today rs st).1.dailyCounts.linkedin =
      st.dailyCounts.linkedin +
        (sucCalls Platform.linkedin (daySim env today rs st).2 : Int) := by
  intro rs
  induction rs with
  | nil =>
    intro st hst
    refine ⟨⟨hst, rfl, ?_⟩, ?_, ?_⟩
    · intro s hs
      simp [statesAfter] at hs
    · simp [daySim, sucCalls]
    · simp [daySim, sucCalls]
  | cons r rs ih =>
    intro st hst
    have h0 : initialCounts today st = st.dailyCounts :=
      initialCounts_today today st hst.1 hst.2.1
    have hrm := runMain_dayInv env r.dryRun r.now r.nowMs today st r.drafts r.posts
      (by rw [h0]; exact hst.1) (by rw [h0]; exact hst.2.1)
      (by rw [h0]; exact hst.2.2.1) (by rw [h0]; exact hst.2.2.2.1)
      (by rw [h0]; exact hst.2.2.2.2.1) (by rw [h0]; exact hst.2.2.2.2.2)
    rw [h0] at hrm
    obtain ⟨hinv1, hx1, hl1⟩ := hrm
    obtain ⟨⟨hinv2, hres2, hall2⟩, hx2, hl2⟩ :=
      ih (runMain env r.dryRun r.now r.nowMs today st r.drafts r.posts).1 hinv1
    refine ⟨⟨?_, ?_, ?_⟩, ?_, ?_⟩
    · simp only [daySim]
      exact hinv2
    · simp only [countResets]
      rw [if_neg (not_not_intro hst.1), hres2]
    · intro s hs
      simp only [statesAfter] at hs
      rcases List.mem_cons.mp hs with h | h
      · rw [h]
        exact hinv1
      · exact hall2 s h
    · simp only [daySim]
      rw [sucCalls_append]
      push_cast
      rw [hx2, hx1]
      ring
    · simp only [daySim]
      rw [sucCalls_append]
      push_cast
      rw [hl2, hl1]
      ring

/-- C2 (amended): across the runs of one calendar day, starting from a
state whose stored counter date is stale, the number of SUCCESSFUL
non-dry-run publish calls per platform never exceeds the daily cap (3 for
X, 1 for LinkedIn), the counters are reset exactly once (on the first run
of the day), every saved state keeps its counters between zero and the
caps, and the final counters equal exactly the day's successful real
publish calls — counters are incremented only for non-dry-run, successful
publishes.  The literal claim, which caps ALL non-dry-run publish calls,
is refuted by the companion counterexample. -/
theorem cap_enforcement_amended (env : Env) (today : String) (st0 : CrosspostState)
    (r : RunInput) (rs : List RunInput)
    (hstale : st0.dailyCounts.date ≠ today) :
    ((sucCalls Platform.x (daySim env today (r :: rs) st0).2 : Int) ≤ DAILY_CAP_X ∧
      (sucCalls Platform.linkedin (daySim env today (r :: rs) st0).2 : Int) ≤
        DAILY_CAP_LINKEDIN) ∧
    countResets env today (r :: rs) st0 = 1 ∧
    (∀ s ∈ statesAfter env today (r :: rs) st0, DayInv today s) ∧
    (daySim env today (r :: rs) st0).1.dailyCounts.x =
      (sucCalls Platform.x (daySim env today (r :: rs) st0).2 : Int) ∧
    (daySim env today (r :: rs) st0).1.dailyCounts.linkedin =
      (sucCalls Platform.linkedin (daySim env today (r :: rs) st0).2 : Int) := by
  have hfresh := initialCounts_fresh today st0 hstale
  have hrm := runMain_dayInv env r.dryRun r.now r.nowMs today st0 r.drafts r.posts
    (by rw [hfresh]) (by rw [hfresh]) (by rw [hfresh])
    (by rw [hfresh]; dsimp only; decide) (by rw [hfresh])
    (by rw [hfresh]; dsimp only; decide)
  rw [hfresh] at hrm
  obtain ⟨hinv1, hx1, hl1⟩ := hrm
  have hx1' : (runMain env r.dryRun r.now r.nowMs today st0 r.drafts r.posts).1.dailyCounts.x =
      (sucCalls Platform.x
        (runMain env r.dryRun r.now r.nowMs today st0 r.drafts r.posts).2 : Int) := by
    rw [hx1]
    simp
  have hl1' : (runMain env r.dryRun r.now r.nowMs today st0
        r.drafts r.posts).1.dailyCounts.linkedin =
      (sucCalls Platform.linkedin
        (runMain env r.dryRun r.now r.nowMs today st0 r.drafts r.posts).2 : Int) := by
    rw [hl1]
    simp
  obtain ⟨⟨hinv2, hres2, hall2⟩, hx2, hl2⟩ :=
    daySim_inv env today rs
      (runMain env r.dryRun r.now r.nowMs today st0 r.drafts r.posts).1 hinv1
  have hxeq : (daySim env today (r :: rs) st0).1.dailyCounts.x =
      (sucCalls Platform.x (daySim env today (r :: rs) st0).2 : Int) := by
    simp only [daySim]
    rw [sucCalls_append]
    push_cast
    rw [hx2, hx1']
  have hleq : (daySim env today (r :: rs) st0).1.dailyCounts.linkedin =
      (sucCalls Platform.linkedin (daySim env today (r :: rs) st0).2 : Int) := by
    simp only [daySim]
    rw [sucCalls_append]
    push_cast
    rw [hl2, hl1']
  have hfin : DayInv today (daySim env today (r :: rs) st0).1 := by
    simp only [daySim]
    exact hinv2
  refine ⟨⟨?_, ?_⟩, ?_, ?_, hxeq, hleq⟩
  · rw [← hxeq]
    exact hfin.2.2.2.1
  · rw [← hleq]
    exact hfin.2.2.2.2.2
  · simp only [countResets]
    rw [if_pos hstale, hres2]
  · intro s hs
    simp only [statesAfter] at hs
    rcases List.mem_cons.mp hs with h | h
    · rw [h]
      exact hinv1
    · exact hall2 s h

set_option maxRecDepth 8192 in
/-- C2: the claim as stated is refuted — with publishers that fail, a
single non-dry-run run over four sufficiently scored candidates issues
four non-dry-run X publish calls within one calendar day, exceeding the
daily cap of three; the code caps only the counter of successful
publishes, not the number of publish attempts. -/
theorem cap_calls_counterexample :
    DAILY_CAP_X <
      (allCalls Platform.x (daySim envFail "2024-01-02" [capRun] emptyState).2 : Int) := by
  decide

set_option maxRecDepth 8192 in
/-- Witness for the amended cap-enforcement theorem on a concrete
one-run day starting from a stale-dated fresh state. -/
theorem cap_enforcement_amended_witness :
    emptyState.dailyCounts.date ≠ "2024-01-02" ∧
    (((sucCalls Platform.x (daySim env0 "2024-01-02" [capRun] emptyState).2 : Int) ≤
        DAILY_CAP_X ∧
      (sucCalls Platform.linkedin
        (daySim env0 "2024-01-02" [capRun] emptyState).2 : Int) ≤ DAILY_CAP_LINKEDIN) ∧
     countResets env0 "2024-01-02" [capRun] emptyState = 1 ∧
     (∀ s ∈ statesAfter env0 "2024-01-02" [capRun] emptyState, DayInv "2024-01-02" s) ∧
     (daySim env0 "2024-01-02" [capRun] emptyState).1.dailyCounts.x =
       (sucCalls Platform.x (daySim env0 "2024-01-02" [capRun] emptyState).2 : Int) ∧
     (daySim env0 "2024-01-02" [capRun] emptyState).1.dailyCounts.linkedin =
       (sucCalls Platform.linkedin
         (daySim env0 "2024-01-02" [capRun] emptyState).2 : Int)) :=
  ⟨by decide, cap_enforcement_amended env0 "2024-01-02" emptyState capRun [] (by decide)⟩

end Crosspost
